import Mathlib

/-!
Verification of `THcHallCSpectrometer` (hcana): target-frame reconstruction
(`FindVertices`) and golden-track selection (`TrackCalc`).

Shallow embedding conventions:
* C++ `Double_t` values are modelled as exact rationals (`ℚ`); the selection
  logic only compares and combines such values arithmetically.
* Collaborator objects (`THcHodoscope`, the track container) are modelled by
  records of accessor functions and lists of track records.
* `TMath::Sqrt` is an external math routine; it enters only the prune-mode
  beta comparison, and is passed in as an explicit function parameter.
* Member variables written during an event (`fGoldenTrack`, the prune
  thresholds) are threaded explicitly through the event-processing functions.
* `fGoldenTrack` is modelled as `Option ℕ`: `some i` stands for the pointer
  `fTracks->At(i)` installed by whichever event wrote it last, `none` for the
  null pointer.
-/

/-- One polynomial basis term of the reconstruction matrix, as parsed by
`THcHallCSpectrometer::ReadDatabase`: four output coefficients `Coeff[0..3]`
and five single-digit exponents `Exp[0..4]`. -/
structure ReconTerm where
  Coeff : Fin 4 → ℚ
  Exp : Fin 5 → ℕ

/-- The calibration scalars read by `THcHallCSpectrometer::FindVertices`
(loaded in `ReadDatabase` / `InitializeReconstruction`). -/
structure ReconConfig where
  fZTrueFocus : ℚ
  fDetOffset_x : ℚ
  fDetOffset_y : ℚ
  fAngOffset_x : ℚ
  fAngOffset_y : ℚ
  fAngSlope_x : ℚ
  fAngSlope_y : ℚ
  fPhiOffset : ℚ
  fThetaOffset : ℚ
  fDeltaOffset : ℚ
  fPcentral : ℚ

/-- A candidate track (`THaTrack`) with exactly the fields this file's code
reads or writes: focal-plane coordinates `x, theta, y, phi` (GetX, GetTheta,
GetY, GetPhi), fit quality `chi2, ndof`, the quantities used by the selection
cuts, and the target-frame outputs `tX, tY, tTheta, tPhi, dp, p`
(SetTarget / SetDp / SetMomentum; GetTTheta / GetTPhi / GetTY / GetDp / GetP). -/
structure Track where
  x : ℚ
  theta : ℚ
  y : ℚ
  phi : ℚ
  chi2 : ℚ
  ndof : ℚ
  dedx : ℚ
  beta : ℚ
  energy : ℚ
  p : ℚ
  dp : ℚ
  tX : ℚ
  tY : ℚ
  tTheta : ℚ
  tPhi : ℚ
  betaChi2 : ℚ
  fpTime : ℚ
  npmt : ℚ
  goodPlane3 : ℤ
  goodPlane4 : ℤ
deriving DecidableEq

/-- The rotated focal-plane coordinates `hut_rot[0..4]` computed at the top of
the `FindVertices` track loop (`gbeam_y` is fixed at zero in the source). -/
def hutRot (cal : ReconConfig) (t : Track) : Fin 5 → ℚ :=
  let hut0 := t.x / 100 + cal.fZTrueFocus * t.theta + cal.fDetOffset_x
  let hut1 := t.theta + cal.fAngOffset_x
  let hut2 := t.y / 100 + cal.fZTrueFocus * t.phi + cal.fDetOffset_y
  let hut3 := t.phi + cal.fAngOffset_y
  let gbeamY : ℚ := 0
  let hut4 := -gbeamY / 100
  ![hut0, hut1 + hut0 * cal.fAngSlope_x, hut2, hut3 + hut2 * cal.fAngSlope_y, hut4]

/-- The monomial of one `ReconTerm`: the inner `j` loop of `FindVertices`,
starting from `term = 1.0` and multiplying by `hut_rot[j]^Exp[j]` only when
`Exp[j] != 0` (zero exponents are skipped, no exponentiation is performed). -/
def termValue (hr : Fin 5 → ℚ) (rt : ReconTerm) : ℚ :=
  (List.finRange 5).foldl
    (fun term j => if rt.Exp j ≠ 0 then term * hr j ^ rt.Exp j else term) 1

/-- `sum[k]` of `FindVertices`: accumulated over the `ReconTerm` list in file
order, adding `term * Coeff[k]` for each term. -/
def cosySum (terms : List ReconTerm) (hr : Fin 5 → ℚ) (k : Fin 4) : ℚ :=
  terms.foldl (fun s rt => s + termValue hr rt * rt.Coeff k) 0

/-- The body of the `FindVertices` track loop: writes the target-frame fields
of one track.  `SetTarget(0, sum[1]*100, sum[0]+fPhiOffset, sum[2]+fThetaOffset)`
stores its four arguments in `tX, tY, tTheta, tPhi` respectively (the source
notes that the offset names are historically swapped relative to the transport
angle names); then `SetDp(sum[3]*100+fDeltaOffset)` and
`SetMomentum(fPcentral*(1+Dp/100))`. -/
def targetTransform (cal : ReconConfig) (terms : List ReconTerm) (t : Track) : Track :=
  let hr := hutRot cal t
  let sum := cosySum terms hr
  let dpVal := sum 3 * 100 + cal.fDeltaOffset
  { t with
    tX := 0
    tY := sum 1 * 100
    tTheta := sum 0 + cal.fPhiOffset
    tPhi := sum 2 + cal.fThetaOffset
    dp := dpVal
    p := cal.fPcentral * (1 + dpVal / 100) }

/-- `THcHallCSpectrometer::FindVertices`: apply the target transform to every
candidate track of the event. -/
def findVertices (cal : ReconConfig) (terms : List ReconTerm) (tracks : List Track) :
    List Track :=
  tracks.map (targetTransform cal terms)

/-- The configuration scalars read by `THcHallCSpectrometer::TrackCalc`
(the nine prune thresholds are also written back by the prune branch). -/
structure Config where
  fSelUsingScin : ℤ
  fSelUsingPrune : ℤ
  trSorting : Bool
  fSelNDegreesMin : ℚ
  fSeldEdX1Min : ℚ
  fSeldEdX1Max : ℚ
  fSelBetaMin : ℚ
  fSelBetaMax : ℚ
  fSelEtMin : ℚ
  fSelEtMax : ℚ
  fNPlanes : ℕ
  fScin2XZpos : ℚ
  fScin2XdZpos : ℚ
  fScin2YZpos : ℚ
  fScin2YdZpos : ℚ
  fPruneXp : ℚ
  fPruneYp : ℚ
  fPruneYtar : ℚ
  fPruneDelta : ℚ
  fPruneBeta : ℚ
  fPruneDf : ℚ
  fPruneChiBeta : ℚ
  fPruneNPMT : ℚ
  fPruneFpTime : ℚ
  fPartMass : ℚ
deriving DecidableEq

/-- The hodoscope collaborator (`THcHodoscope`), reduced to the accessors
`TrackCalc` calls: per-plane paddle count, plane center, paddle spacing,
per-plane hit count, the flat hit-index accessor `GetGoodRawPad`, and the
start-time reference. -/
structure Hodo where
  nPaddles : ℕ → ℕ
  planeCenter : ℕ → ℚ
  planeSpacing : ℕ → ℚ
  nScinHits : ℕ → ℕ
  goodRawPad : ℤ → ℤ
  startTimeCenter : ℚ

/-- `fChi2PerDeg = GetChi2() / GetNDoF()`.  Rational division (with `q/0 = 0`)
stands in for double division; every theorem that relies on this quantity
assumes `0 < ndof`, where the two semantics agree exactly. -/
def chi2PerDeg (t : Track) : ℚ :=
  t.chi2 / t.ndof

/-- Modelled from the spec: the candidate-source collaborator's in-place sort
(`fTracks->Sort()`, `TClonesArray` with the `THaTrack` chi2/ndof comparator,
outside this repository) — a stable ascending sort by chi2/ndof, ties broken
by original order.  Stable insertion of one track. -/
def insertByChi2 (t : Track) : List Track → List Track
  | [] => [t]
  | s :: rest =>
    if chi2PerDeg t < chi2PerDeg s then t :: s :: rest else s :: insertByChi2 t rest

/-- Modelled from the spec: stable insertion sort by ascending chi2/ndof. -/
def sortTracks : List Track → List Track
  | [] => []
  | t :: rest => insertByChi2 t (sortTracks rest)

/-- Strategy A (`TrackCalc`, neither selection mode enabled): sort if the
`kSortTracks` property is set, then designate index 0 of the (possibly
sorted) list, or null when the event has no candidates.  Returns the
resulting track order and the golden designation. -/
def strategyA (cfg : Config) (tracks : List Track) : List Track × Option ℕ :=
  (if cfg.trSorting then sortTracks tracks else tracks,
   if 0 < tracks.length then some 0 else none)

/-- `TMath::Nint`: round to nearest integer, half-integers to the nearest
even integer. -/
def nint (x : ℚ) : ℤ :=
  let f := ⌊x⌋
  let r := x - f
  if r < 1/2 then f else if r > 1/2 then f + 1 else if f % 2 = 0 then f else f + 1

/-- Array write `hits[pad] = 0` on the paddle-mark arrays, modelled as maps
`ℤ → Bool` (`true` = marked hit).  The C++ arrays have `GetNPaddles` cells and
an out-of-range `pad` is undefined behaviour; the model keeps such writes
harmlessly outside the scanned range. -/
def padWrite (m : ℤ → Bool) (pad : ℤ) : ℤ → Bool :=
  fun j => if j = pad then true else m j

/-- The per-candidate walk over all hodoscope planes (`TrackCalc`, scin
mode): starting from freshly cleared mark arrays, for each plane `ip` and
each of its `GetNScinHits(ip)` hits, advance the running counter
`fRawIndex`, read `GetGoodRawPad(fRawIndex)` and mark that paddle in the
plane-2 (X) or plane-3 (Y) array.  Returns the two mark arrays and the final
counter value.  `fRawIndex` is NOT reset by the caller between candidates. -/
def scinPlaneWalk (hodo : Hodo) (nPlanes : ℕ) (raw : ℤ) :
    (ℤ → Bool) × (ℤ → Bool) × ℤ :=
  (List.range nPlanes).foldl
    (fun st ip =>
      (List.range (hodo.nScinHits ip)).foldl
        (fun st2 _ihit =>
          let raw2 := st2.2.2 + 1
          let pad := hodo.goodRawPad raw2
          (if ip = 2 then padWrite st2.1 pad else st2.1,
           if ip = 3 then padWrite st2.2.1 pad else st2.2.1,
           raw2))
        st)
    (fun _ => false, fun _ => false, raw)

/-- `fHitCnt4`: predicted paddle for plane 4 (index 3), clamped to
`[1, GetNPaddles(3)]`. -/
def predCnt4 (cfg : Config) (hodo : Hodo) (t : Track) : ℤ :=
  let hitpos4 := t.y + t.phi * (cfg.fScin2YZpos + 1/2 * cfg.fScin2YdZpos)
  let icounter4 := nint ((hodo.planeCenter 3 - hitpos4) / hodo.planeSpacing 3) + 1
  max (min icounter4 (hodo.nPaddles 3 : ℤ)) 1

/-- `fHitCnt3`: predicted paddle for plane 3 (index 2), clamped to
`[1, GetNPaddles(2)]`. -/
def predCnt3 (cfg : Config) (hodo : Hodo) (t : Track) : ℤ :=
  let hitpos3 := t.x + t.theta * (cfg.fScin2XZpos + 1/2 * cfg.fScin2XdZpos)
  let icounter3 := nint ((hitpos3 - hodo.planeCenter 2) / hodo.planeSpacing 2) + 1
  max (min icounter3 (hodo.nPaddles 2 : ℤ)) 1

/-- One paddle of the `fZap`/`ft` loop of the scin branch, on the state
`(fZap, ft)`: a marked paddle `i` contributes the integer distance
`|cnt - i - 1|`; the first hit initializes `fZap` and hits 2..6 lower it;
hits beyond the sixth are ignored. -/
def zapStep (marked : ℤ → Bool) (cnt : ℤ) (st : ℚ × ℕ) (i : ℕ) : ℚ × ℕ :=
  if marked (i : ℤ) then
    let d : ℚ := ((cnt - (i : ℤ) - 1).natAbs : ℚ)
    let ft := st.2 + 1
    (if ft = 1 then d else if ft ≤ 6 ∧ d < st.1 then d else st.1, ft)
  else st

/-- The `fZap`/`ft` loop of the scin branch over the paddles `0..n-1` of a
plane, starting from `fZap = 0`, `ft = 0`; result 0 when no paddle is
marked. -/
def zapMin (marked : ℤ → Bool) (n : ℕ) (cnt : ℤ) : ℚ :=
  ((List.range n).foldl (zapStep marked cnt) ((0 : ℚ), (0 : ℕ))).1

/-- The scin-mode qualification: the minimum-degrees-of-freedom cut and the
four range cuts (dE/dx, beta, energy), all strict as in the source. -/
def qualifies (cfg : Config) (t : Track) : Prop :=
  cfg.fSelNDegreesMin < t.ndof
  ∧ cfg.fSeldEdX1Min < t.dedx ∧ t.dedx < cfg.fSeldEdX1Max
  ∧ cfg.fSelBetaMin < t.beta ∧ t.beta < cfg.fSelBetaMax
  ∧ cfg.fSelEtMin < t.energy ∧ t.energy < cfg.fSelEtMax

instance (cfg : Config) (t : Track) : Decidable (qualifies cfg t) := by
  unfold qualifies
  infer_instance

/-- One candidate evaluation of the scin branch: if the candidate qualifies,
walk the planes (advancing the shared counter), compute the two clamped
predicted paddles, and produce the pair of consistency distances — forced to
zero when the event has exactly one candidate (`fNtracks == 1`), otherwise
taken from the `fZap` loops.  Returns the scores (or `none` when the
candidate fails the cuts) and the updated shared counter. -/
def scinEval (cfg : Config) (hodo : Hodo) (ntracks : ℕ) (raw : ℤ) (t : Track) :
    Option (ℚ × ℚ) × ℤ :=
  if qualifies cfg t then
    let w := scinPlaneWalk hodo cfg.fNPlanes raw
    let y2d : ℚ := if 1 < ntracks then zapMin w.2.1 (hodo.nPaddles 3) (predCnt4 cfg hodo t) else 0
    let x2d : ℚ := if 1 < ntracks then zapMin w.1 (hodo.nPaddles 2) (predCnt3 cfg hodo t) else 0
    (some (y2d, x2d), w.2.2)
  else (none, raw)

/-- The running selection state of the scin-mode main scan:
`fGoodTrack` (with `none` for the initial -1), `fY2Dmin`, `fX2Dmin`,
`fChi2Min`. -/
structure BState where
  good : Option ℕ
  ymin : ℚ
  xmin : ℚ
  cmin : ℚ
deriving DecidableEq

/-- The `fChi2Min` sentinel `10000000000.0`. -/
def bigChi : ℚ := 10000000000

/-- Initial scan state: `fGoodTrack = -1`, `fY2Dmin = 100`, `fX2Dmin = 100`,
`fChi2Min = 1e10`. -/
def initB : BState := { good := none, ymin := 100, xmin := 100, cmin := bigChi }

/-- The `fY2D < fY2Dmin` reset of the scin-mode main scan: on strict
improvement of the Y score, `fX2Dmin` is reset to 100 and `fChi2Min` to 1e10. -/
def scanStepY (st : BState) (sc1 : ℚ) : BState :=
  if sc1 < st.ymin then { st with xmin := 100, cmin := bigChi } else st

/-- The `fX2D < fX2Dmin` reset of the scin-mode main scan: on strict
improvement of the X score, `fChi2Min` is reset to 1e10. -/
def scanStepX (st : BState) (sc2 : ℚ) : BState :=
  if sc2 < st.xmin then { st with cmin := bigChi } else st

/-- The nested comparison block of the scin-mode main scan for one qualifying
candidate `i` with scores `sc = (fY2D, fX2D)` and `c = fChi2PerDeg`:
`fY2D <= fY2Dmin` (with the strict-improvement reset), then
`fX2D <= fX2Dmin` (with its reset), then `fChi2PerDeg < fChi2Min` selects the
candidate and installs its scores as the new minima. -/
def scanStep (st : BState) (i : ℕ) (sc : ℚ × ℚ) (c : ℚ) : BState :=
  if sc.1 ≤ st.ymin then
    if sc.2 ≤ (scanStepY st sc.1).xmin then
      if c < (scanStepX (scanStepY st sc.1) sc.2).cmin then
        { good := some i, ymin := sc.1, xmin := sc.2, cmin := c }
      else scanStepX (scanStepY st sc.1) sc.2
    else scanStepY st sc.1
  else st

/-- The scin-mode main loop over candidates, threading the candidate index,
the shared raw hit counter and the selection state. -/
def scinLoop (cfg : Config) (hodo : Hodo) (ntracks : ℕ) :
    List Track → ℕ → ℤ → BState → BState
  | [], _, _, st => st
  | t :: ts, i, raw, st =>
    match scinEval cfg hodo ntracks raw t with
    | (some sc, raw2) =>
        scinLoop cfg hodo ntracks ts (i + 1) raw2 (scanStep st i sc (chi2PerDeg t))
    | (none, raw2) => scinLoop cfg hodo ntracks ts (i + 1) raw2 st

/-- The qualifying candidates of the scin scan with their computed scores:
entries `(index, fY2D, fX2D, fChi2PerDeg)`, with the same raw-counter
threading as the main loop. -/
def scinEntries (cfg : Config) (hodo : Hodo) (ntracks : ℕ) :
    List Track → ℕ → ℤ → List (ℕ × ℚ × ℚ × ℚ)
  | [], _, _ => []
  | t :: ts, i, raw =>
    match scinEval cfg hodo ntracks raw t with
    | (some sc, raw2) =>
        (i, sc.1, sc.2, chi2PerDeg t) :: scinEntries cfg hodo ntracks ts (i + 1) raw2
    | (none, raw2) => scinEntries cfg hodo ntracks ts (i + 1) raw2

/-- The loop body of the scin-mode fallback re-scan, threading the candidate
index and the `(fGoodTrack, fChi2Min)` state. -/
def scinFallbackGo (cfg : Config) : List Track → ℕ → Option ℕ × ℚ → Option ℕ × ℚ
  | [], _, st => st
  | t :: ts, i, st =>
    scinFallbackGo cfg ts (i + 1)
      (if cfg.fSelNDegreesMin < t.ndof ∧ chi2PerDeg t < st.2
       then (some i, chi2PerDeg t) else st)

/-- The scin-mode fallback re-scan (`fGoodTrack == -1`): keep only the
degrees-of-freedom cut and take the candidate with the smallest chi2/ndof
below the reset `fChi2Min = 1e10`. -/
def scinFallback (cfg : Config) (tracks : List Track) : Option ℕ × ℚ :=
  scinFallbackGo cfg tracks 0 (none, bigChi)

/-- Strategy B (`fSelUsingScin == 1`): the main scored scan; if it designated
no candidate, the fallback re-scan; if that also designates none, the golden
member keeps its previous value (`prev`); an empty candidate set clears it. -/
def strategyB (cfg : Config) (hodo : Hodo) (tracks : List Track) (prev : Option ℕ) :
    Option ℕ :=
  if 0 < tracks.length then
    match (scinLoop cfg hodo tracks.length tracks 0 (-1) initB).good with
    | some i => some i
    | none =>
      match (scinFallback cfg tracks).1 with
      | some j => some j
      | none => prev
  else none

/-- One prune criterion: the pass predicate and the rejection-code
contribution added to `fReject` on failure. -/
structure PruneCut where
  pass : Track → Bool
  code : ℤ

/-- `fBetaP = fP / TMath::Sqrt(fP*fP + fPartMass*fPartMass)`; the square root
is the external `TMath::Sqrt`, passed in as `sqrtFn`. -/
def betaP (sqrtFn : ℚ → ℚ) (m : ℚ) (t : Track) : ℚ :=
  t.p / sqrtFn (t.p * t.p + m * m)

/-- The eleven prune criteria of the prune branch, in source order, with
their distinct rejection-code contributions (xptar 1, yptar 2, ytar 10,
delta 20, beta 100, degrees of freedom 200, pmt count 100000, beta chi2 1000,
fptime 2000, plane-4 hit 10000, plane-3 hit 20000).  Each `pass` is the
literal complement of the source's failure test. -/
def pruneCuts (sqrtFn : ℚ → ℚ) (cfg : Config) (hodo : Hodo) : List PruneCut :=
  [ ⟨fun t => decide (|t.tTheta| < cfg.fPruneXp), 1⟩,
    ⟨fun t => decide (|t.tPhi| < cfg.fPruneYp), 2⟩,
    ⟨fun t => decide (|t.tY| < cfg.fPruneYtar), 10⟩,
    ⟨fun t => decide (|t.dp| < cfg.fPruneDelta), 20⟩,
    ⟨fun t => decide (|t.beta - betaP sqrtFn cfg.fPartMass t| < cfg.fPruneBeta), 100⟩,
    ⟨fun t => decide (cfg.fPruneDf ≤ t.ndof), 200⟩,
    ⟨fun t => decide (cfg.fPruneNPMT ≤ t.npmt), 100000⟩,
    ⟨fun t => decide (t.betaChi2 < cfg.fPruneChiBeta ∧ (1/100 : ℚ) < t.betaChi2), 1000⟩,
    ⟨fun t => decide (|t.fpTime - hodo.startTimeCenter| < cfg.fPruneFpTime), 2000⟩,
    ⟨fun t => decide (t.goodPlane4 = 1), 10000⟩,
    ⟨fun t => decide (t.goodPlane3 = 1), 20000⟩ ]

/-- The per-event prune workspace: one `(fKeep, fReject)` pair per candidate,
initialized to `(true, 0)`. -/
def initWs (tracks : List Track) : List (Bool × ℤ) :=
  tracks.map (fun _ => (true, 0))

/-- `fNGood`: the first loop of each prune cut, counting candidates that pass
the criterion and are still kept. -/
def nGoodCount (c : PruneCut) : List Track → List (Bool × ℤ) → ℕ
  | t :: ts, w :: wsr => (if c.pass t && w.1 then 1 else 0) + nGoodCount c ts wsr
  | _, _ => 0

/-- The second loop of each prune cut: every candidate failing the criterion
is marked not-kept and its rejection word gains the cut's code (even if it
was already not kept, as in the source). -/
def markFail (c : PruneCut) : List Track → List (Bool × ℤ) → List (Bool × ℤ)
  | t :: ts, w :: wsr =>
    (if !(c.pass t) then (false, w.2 + c.code) else w) :: markFail c ts wsr
  | _, _ => []

/-- One soft cut of the prune branch: the cut is applied only when `fNGood`
is positive, otherwise the workspace is left untouched. -/
def softCut (tracks : List Track) (ws : List (Bool × ℤ)) (c : PruneCut) :
    List (Bool × ℤ) :=
  if 0 < nGoodCount c tracks ws then markFail c tracks ws else ws

/-- The workspace after the first `n` cuts of the prune pipeline. -/
def pruneWsAfter (sqrtFn : ℚ → ℚ) (cfg : Config) (hodo : Hodo) (tracks : List Track)
    (n : ℕ) : List (Bool × ℤ) :=
  ((pruneCuts sqrtFn cfg hodo).take n).foldl (softCut tracks) (initWs tracks)

/-- The workspace after the whole prune pipeline. -/
def pruneWs (sqrtFn : ℚ → ℚ) (cfg : Config) (hodo : Hodo) (tracks : List Track) :
    List (Bool × ℤ) :=
  (pruneCuts sqrtFn cfg hodo).foldl (softCut tracks) (initWs tracks)

/-- The loop body of the prune branch's final selection, threading the
candidate index and the `(fGoodTrack, fChi2Min)` state. -/
def pruneSelectGo : List Track → List (Bool × ℤ) → ℕ → ℕ × ℚ → ℕ × ℚ
  | t :: ts, w :: wsr, i, st =>
    pruneSelectGo ts wsr (i + 1)
      (if chi2PerDeg t < st.2 ∧ w.1 = true then (i, chi2PerDeg t) else st)
  | _, _, _, st => st

/-- The final selection loop of the prune branch: starting from
`fGoodTrack = 0`, `fChi2Min = 1e10`, take each kept candidate whose chi2/ndof
strictly lowers `fChi2Min`. -/
def pruneSelect (tracks : List Track) (ws : List (Bool × ℤ)) : ℕ × ℚ :=
  pruneSelectGo tracks ws 0 (0, bigChi)

/-- Strategy C (`fSelUsingPrune == 1`): run the eleven soft cuts, then
unconditionally designate `fGoodTrack` (whatever the selection loop left
there, 0 if it never fired); an empty candidate set clears golden.  The
incoming golden value is never consulted. -/
def strategyC (sqrtFn : ℚ → ℚ) (cfg : Config) (hodo : Hodo) (tracks : List Track) :
    Option ℕ :=
  if 0 < tracks.length then
    some (pruneSelect tracks (pruneWs sqrtFn cfg hodo tracks)).1
  else none

/-- The in-place clamping of the nine prune thresholds to their documented
floors (`TMath::Max`), executed at the top of the prune branch and written
back into the configuration members. -/
def pruneClampConfig (cfg : Config) : Config :=
  { cfg with
    fPruneXp := max (2/25) cfg.fPruneXp
    fPruneYp := max (1/25) cfg.fPruneYp
    fPruneYtar := max 4 cfg.fPruneYtar
    fPruneDelta := max 13 cfg.fPruneDelta
    fPruneBeta := max (1/10) cfg.fPruneBeta
    fPruneDf := max 1 cfg.fPruneDf
    fPruneChiBeta := max 2 cfg.fPruneChiBeta
    fPruneFpTime := max 5 cfg.fPruneFpTime
    fPruneNPMT := max 6 cfg.fPruneNPMT }

/-- `THcHallCSpectrometer::TrackCalc`: the three strategy branches in source
order, threading the configuration (mutated by the prune clamps), the track
list (reordered by Strategy A's sort) and the golden member. -/
def trackCalc (sqrtFn : ℚ → ℚ) (cfg : Config) (hodo : Hodo) (tracks : List Track)
    (prev : Option ℕ) : Config × List Track × Option ℕ :=
  let aRes :=
    if cfg.fSelUsingScin = 0 ∧ cfg.fSelUsingPrune = 0 then strategyA cfg tracks
    else (tracks, prev)
  let tracks1 := aRes.1
  let g1 := aRes.2
  let g2 := if cfg.fSelUsingScin = 1 then strategyB cfg hodo tracks1 g1 else g1
  let cfg2 := if cfg.fSelUsingPrune = 1 then pruneClampConfig cfg else cfg
  let g3 := if cfg.fSelUsingPrune = 1 then strategyC sqrtFn cfg2 hodo tracks1 else g2
  (cfg2, tracks1, g3)

/-- Spec-side monomial: the full product over the five coordinates with the
zero-exponent factor taken as the multiplicative identity (`q ^ 0 = 1`). -/
def termValueSpec (hr : Fin 5 → ℚ) (rt : ReconTerm) : ℚ :=
  ∏ j : Fin 5, hr j ^ rt.Exp j

/-- Spec-side `sum[k]`: the sum over all terms of the term's `k`-th
coefficient times its monomial. -/
def cosySumSpec (terms : List ReconTerm) (hr : Fin 5 → ℚ) (k : Fin 4) : ℚ :=
  (terms.map (fun rt => rt.Coeff k * termValueSpec hr rt)).sum

/-- The strict lexicographic order on score triples
`(fY2D, fX2D, fChi2PerDeg)`. -/
def lexLt3 (a b : ℚ × ℚ × ℚ) : Prop :=
  a.1 < b.1 ∨ (a.1 = b.1 ∧ (a.2.1 < b.2.1 ∨ (a.2.1 = b.2.1 ∧ a.2.2 < b.2.2)))

/-- The lexicographic order (allowing equality) on score triples. -/
def lexLe3 (a b : ℚ × ℚ × ℚ) : Prop :=
  a.1 < b.1 ∨ (a.1 = b.1 ∧ (a.2.1 < b.2.1 ∨ (a.2.1 = b.2.1 ∧ a.2.2 ≤ b.2.2)))

instance (a b : ℚ × ℚ × ℚ) : Decidable (lexLt3 a b) := by
  unfold lexLt3
  infer_instance

instance (a b : ℚ × ℚ × ℚ) : Decidable (lexLe3 a b) := by
  unfold lexLe3
  infer_instance

/-- The scan step applied to one entry `(index, fY2D, fX2D, fChi2PerDeg)`. -/
def scanStepE (st : BState) (e : ℕ × ℚ × ℚ × ℚ) : BState :=
  scanStep st e.1 (e.2.1, e.2.2.1) e.2.2.2

/-- The scan state designating entry `e`. -/
def mkB (e : ℕ × ℚ × ℚ × ℚ) : BState :=
  { good := some e.1, ymin := e.2.1, xmin := e.2.2.1, cmin := e.2.2.2 }

/-- The score triple of an entry. -/
def trOf (e : ℕ × ℚ × ℚ × ℚ) : ℚ × ℚ × ℚ := e.2

/-- The running minima of a scan state as a triple. -/
def minsOf (st : BState) : ℚ × ℚ × ℚ := (st.ymin, st.xmin, st.cmin)

/-- Calibration with every offset, slope and reference zero (central momentum
irrelevant to the end-to-end check; set to 1). -/
def zeroCal : ReconConfig :=
  { fZTrueFocus := 0, fDetOffset_x := 0, fDetOffset_y := 0, fAngOffset_x := 0
    fAngOffset_y := 0, fAngSlope_x := 0, fAngSlope_y := 0, fPhiOffset := 0
    fThetaOffset := 0, fDeltaOffset := 0, fPcentral := 1 }

/-- The single reconstruction term `coeff = [1,0,0,0]`, `exp = [1,0,0,0,0]`. -/
def oneTerm : ReconTerm := { Coeff := ![1, 0, 0, 0], Exp := ![1, 0, 0, 0, 0] }

/-- A candidate with focal-plane `x = 2.0` and all other inputs zero. -/
def xTwoTrack : Track :=
  { x := 2, theta := 0, y := 0, phi := 0, chi2 := 0, ndof := 1, dedx := 0
    beta := 0, energy := 0, p := 0, dp := 0, tX := 0, tY := 0, tTheta := 0
    tPhi := 0, betaChi2 := 0, fpTime := 0, npmt := 0, goodPlane3 := 0
    goodPlane4 := 0 }

/-- Stand-in for the external `TMath::Sqrt` in concrete instances; it is only
ever applied to `0*0 + 1*1 = 1` there, where the value 1 is exact. -/
def oneSqrt : ℚ → ℚ := fun _ => 1

/-- A candidate that passes the scin-mode cuts of `bCfg` with chi2/ndof 1. -/
def baseTrack : Track :=
  { x := 0, theta := 0, y := 0, phi := 0, chi2 := 1, ndof := 1, dedx := 1
    beta := 1, energy := 1, p := 0, dp := 0, tX := 0, tY := 0, tTheta := 0
    tPhi := 0, betaChi2 := 1, fpTime := 0, npmt := 10, goodPlane3 := 1
    goodPlane4 := 1 }

/-- A scin-mode configuration (no hodoscope planes, all range cuts (0,2)). -/
def bCfg : Config :=
  { fSelUsingScin := 1, fSelUsingPrune := 0, trSorting := true
    fSelNDegreesMin := 0, fSeldEdX1Min := 0, fSeldEdX1Max := 2
    fSelBetaMin := 0, fSelBetaMax := 2, fSelEtMin := 0, fSelEtMax := 2
    fNPlanes := 0, fScin2XZpos := 0, fScin2XdZpos := 0, fScin2YZpos := 0
    fScin2YdZpos := 0, fPruneXp := 1, fPruneYp := 1, fPruneYtar := 5
    fPruneDelta := 15, fPruneBeta := 1, fPruneDf := 1, fPruneChiBeta := 2
    fPruneNPMT := 6, fPruneFpTime := 5, fPartMass := 1 }

/-- The scin-mode configuration with four hodoscope planes. -/
def b4Cfg : Config := { bCfg with fNPlanes := 4 }

/-- Strategy A configuration: both selection modes off, sorting on. -/
def aCfg : Config := { bCfg with fSelUsingScin := 0 }

/-- A hodoscope with 10 paddles per plane and no hits at all. -/
def emptyHodo : Hodo :=
  { nPaddles := fun _ => 10, planeCenter := fun _ => 0
    planeSpacing := fun _ => 1, nScinHits := fun _ => 0
    goodRawPad := fun _ => 0, startTimeCenter := 0 }

/-- A hodoscope with one hit in plane 3 (the 2Y plane): the flat hit list has
a single valid entry, `GetGoodRawPad(0) = 5`; any read past the end of the
list (index 1 and beyond) returns 1. -/
def hitHodo : Hodo :=
  { nPaddles := fun _ => 10, planeCenter := fun _ => 0
    planeSpacing := fun _ => 1, nScinHits := fun ip => if ip = 3 then 1 else 0
    goodRawPad := fun r => if r = 0 then 5 else 1, startTimeCenter := 0 }

/-- A qualifying candidate whose chi2/ndof equals `2e10`, above the
`fChi2Min` sentinel `1e10`. -/
def hugeTrack : Track := { baseTrack with chi2 := 20000000000 }

/-- A candidate failing the dE/dx range cut (but passing the
degrees-of-freedom cut). -/
def badTrack : Track := { baseTrack with dedx := 5 }

/-- A candidate failing the degrees-of-freedom cut of `bCfg` (`ndof = 0`
never reaches a division on any control path of the instances using it). -/
def noDfTrack : Track := { baseTrack with ndof := 0 }

/-- Two candidates for the Strategy A witness: chi2/ndof 2 and 1. -/
def tHi : Track := { baseTrack with chi2 := 2 }

/-- The better of the two Strategy A witness candidates. -/
def tLo : Track := { baseTrack with chi2 := 1 }

/-- A prune-mode configuration whose nine thresholds all sit at or above
their documented floors. -/
def cCfg : Config :=
  { bCfg with
    fSelUsingScin := 0
    fSelUsingPrune := 1
    fPruneXp := 1/2
    fPruneYp := 1
    fPruneYtar := 5
    fPruneDelta := 15
    fPruneBeta := 1
    fPruneDf := 1
    fPruneChiBeta := 2
    fPruneNPMT := 6
    fPruneFpTime := 5 }

/-- The prune-mode configuration with `prune_xp = 0.01`, below its floor
`0.08`. -/
def c9Cfg : Config := { cCfg with fPruneXp := 1/100 }

/-- A candidate passing every prune criterion of `cCfg` (chi2/ndof 1/10). -/
def pruneT : Track :=
  { baseTrack with
    ndof := 10
    p := 0
    beta := 0
    npmt := 10
    betaChi2 := 1
    fpTime := 0
    tTheta := 0
    tPhi := 0
    tY := 0
    dp := 0 }

/-- `pruneT` with `|target-theta| = 1`, failing only the (clamped) angle-x
prune criterion of `cCfg`. -/
def failT : Track := { pruneT with tTheta := 1 }

/-- A candidate passing every prune criterion of `cCfg` but whose chi2/ndof
is `2e10`, above the selection sentinel `1e10`. -/
def hugeT2 : Track := { pruneT with chi2 := 200000000000 }

/-- Configuration with both strategy-enable flags set. -/
def bothCfg : Config := { cCfg with fSelUsingScin := 1, fSelUsingPrune := 1 }

lemma termValue_eq_spec (hr : Fin 5 → ℚ) (rt : ReconTerm) :
    termValue hr rt = termValueSpec hr rt := by
  have hstep : ∀ (j : Fin 5) (a : ℚ),
      (if rt.Exp j ≠ 0 then a * hr j ^ rt.Exp j else a) = a * hr j ^ rt.Exp j := by
    intro j a
    by_cases h : rt.Exp j = 0
    · simp [h]
    · simp [h]
  have hfr : (List.finRange 5) = [0, 1, 2, 3, 4] := rfl
  rw [termValue, termValueSpec, hfr]
  simp only [List.foldl, hstep]
  rw [Fin.prod_univ_five]
  ring

lemma foldl_add_eq_sum (f : ReconTerm → ℚ) (l : List ReconTerm) (a : ℚ) :
    l.foldl (fun s rt => s + f rt) a = a + (l.map f).sum := by
  induction l generalizing a with
  | nil => simp
  | cons hd tl ih => simp [List.foldl, ih, add_assoc]

lemma cosySum_eq_spec (terms : List ReconTerm) (hr : Fin 5 → ℚ) (k : Fin 4) :
    cosySum terms hr k = cosySumSpec terms hr k := by
  rw [cosySum, cosySumSpec, foldl_add_eq_sum (fun rt => termValue hr rt * rt.Coeff k)]
  rw [zero_add]
  congr 1
  apply List.map_congr_left
  intro rt _
  rw [termValue_eq_spec]
  ring

/-- Claim C1: for every candidate track the Target Transform writes
target-y = 100*sum[1], the sum[0] output plus the phi offset, the sum[2]
output plus the theta offset, momentum deviation = 100*sum[3] + delta offset,
and momentum = central momentum * (1 + deviation/100), where sum[k] is the sum
over all ReconTerms of the term's k-th coefficient times the product of the
five rotated focal-plane coordinates raised to the term's exponents, a
zero-exponent factor contributing exactly 1 (the code skips it; the statement
uses the full product with `q ^ 0 = 1`).  In particular, for the single-term
table coeff=[1,0,0,0], exp=[1,0,0,0,0] with all offsets zero, a candidate with
focal-plane x = 2.0 transforms to a sum[0]-output (the field paired with the
phi offset) of 2/100. -/
theorem C1_targetTransform :
    (∀ (cal : ReconConfig) (terms : List ReconTerm) (t : Track),
      (targetTransform cal terms t).tY = 100 * cosySumSpec terms (hutRot cal t) 1
      ∧ (targetTransform cal terms t).tTheta
          = cosySumSpec terms (hutRot cal t) 0 + cal.fPhiOffset
      ∧ (targetTransform cal terms t).tPhi
          = cosySumSpec terms (hutRot cal t) 2 + cal.fThetaOffset
      ∧ (targetTransform cal terms t).dp
          = 100 * cosySumSpec terms (hutRot cal t) 3 + cal.fDeltaOffset
      ∧ (targetTransform cal terms t).p
          = cal.fPcentral * (1 + (targetTransform cal terms t).dp / 100))
    ∧ (targetTransform zeroCal [oneTerm] xTwoTrack).tTheta = 2 / 100 := by
  constructor
  · intro cal terms t
    refine ⟨?_, ?_, ?_, ?_, ?_⟩ <;>
      simp [targetTransform, cosySum_eq_spec] <;> ring
  · show cosySum [oneTerm] (hutRot zeroCal xTwoTrack) 0 + zeroCal.fPhiOffset = 2 / 100
    norm_num [cosySum, termValue, List.finRange, oneTerm, zeroCal, xTwoTrack, hutRot,
      List.foldl]

lemma mem_insertByChi2 (a t : Track) :
    ∀ (l : List Track), a ∈ insertByChi2 t l ↔ a = t ∨ a ∈ l
  | [] => by simp [insertByChi2]
  | s :: rest => by
    by_cases h : chi2PerDeg t < chi2PerDeg s
    · simp [insertByChi2, h]
    · simp only [insertByChi2, if_neg h, List.mem_cons, mem_insertByChi2 a t rest]
      tauto

lemma mem_sortTracks (a : Track) : ∀ (l : List Track), a ∈ sortTracks l ↔ a ∈ l
  | [] => by simp [sortTracks]
  | t :: rest => by
    simp only [sortTracks, mem_insertByChi2 a t (sortTracks rest),
      mem_sortTracks a rest, List.mem_cons]

lemma insertByChi2_ne_nil (t : Track) : ∀ (l : List Track), insertByChi2 t l ≠ []
  | [] => by simp [insertByChi2]
  | s :: rest => by
    by_cases h : chi2PerDeg t < chi2PerDeg s <;> simp [insertByChi2, h]

lemma sortTracks_eq_nil_iff : ∀ (l : List Track), sortTracks l = [] ↔ l = []
  | [] => by simp [sortTracks]
  | t :: rest => by simp [sortTracks, insertByChi2_ne_nil]

lemma sortTracks_head_min :
    ∀ (l : List Track) (g : Track) (r : List Track),
      sortTracks l = g :: r → ∀ a ∈ l, chi2PerDeg g ≤ chi2PerDeg a
  | [], g, r => by simp [sortTracks]
  | t :: tl, g, r => by
    intro heq a ha
    rw [sortTracks] at heq
    rcases htl : sortTracks tl with _ | ⟨s, r'⟩
    · have htl' : tl = [] := (sortTracks_eq_nil_iff tl).mp htl
      subst htl'
      rw [htl, insertByChi2] at heq
      obtain rfl : g = t := by injection heq with h1 _; exact h1.symm
      rcases List.mem_cons.mp ha with rfl | hb
      · exact le_refl _
      · simp at hb
    · rw [htl] at heq
      have ihs : ∀ b ∈ tl, chi2PerDeg s ≤ chi2PerDeg b :=
        sortTracks_head_min tl s r' htl
      rw [insertByChi2] at heq
      by_cases h : chi2PerDeg t < chi2PerDeg s
      · rw [if_pos h] at heq
        obtain rfl : g = t := by injection heq with h1 _; exact h1.symm
        rcases List.mem_cons.mp ha with rfl | hb
        · exact le_refl _
        · exact le_trans (le_of_lt h) (ihs a hb)
      · rw [if_neg h] at heq
        obtain rfl : g = s := by injection heq with h1 _; exact h1.symm
        rcases List.mem_cons.mp ha with rfl | hb
        · exact le_of_not_lt h
        · exact ihs a hb

lemma foldl_induction {σ α : Type} (f : σ → α → σ) (P : σ → Prop) :
    ∀ (l : List α) (s : σ), P s → (∀ s' a, a ∈ l → P s' → P (f s' a)) →
      P (l.foldl f s)
  | [], s, h0, _ => h0
  | a :: l, s, h0, hstep => by
    rw [List.foldl_cons]
    exact foldl_induction f P l (f s a) (hstep s a (by simp) h0)
      (fun s' b hb => hstep s' b (by simp [hb]))

lemma lexLt3_irrefl (a : ℚ × ℚ × ℚ) : ¬ lexLt3 a a := by
  unfold lexLt3
  intro h
  rcases h with h | ⟨-, h | ⟨-, h⟩⟩ <;> exact lt_irrefl _ h

lemma lexLt3_trans {a b c : ℚ × ℚ × ℚ} (h1 : lexLt3 a b) (h2 : lexLt3 b c) :
    lexLt3 a c := by
  unfold lexLt3 at h1 h2 ⊢
  rcases h1 with h1 | ⟨e1, h1⟩ <;> rcases h2 with h2 | ⟨e2, h2⟩
  · exact Or.inl (lt_trans h1 h2)
  · exact Or.inl (e2 ▸ h1)
  · exact Or.inl (e1 ▸ h2)
  · refine Or.inr ⟨e1.trans e2, ?_⟩
    rcases h1 with h1 | ⟨f1, h1⟩ <;> rcases h2 with h2 | ⟨f2, h2⟩
    · exact Or.inl (lt_trans h1 h2)
    · exact Or.inl (f2 ▸ h1)
    · exact Or.inl (f1 ▸ h2)
    · exact Or.inr ⟨f1.trans f2, lt_trans h1 h2⟩

lemma not_lexLt3_iff (a b : ℚ × ℚ × ℚ) : ¬ lexLt3 a b ↔ lexLe3 b a := by
  unfold lexLt3 lexLe3
  constructor
  · intro h
    push_neg at h
    obtain ⟨h1, h2⟩ := h
    rcases lt_trichotomy b.1 a.1 with hb | hb | hb
    · exact Or.inl hb
    · refine Or.inr ⟨hb, ?_⟩
      obtain ⟨h3, h4⟩ := h2 hb.symm
      rcases lt_trichotomy b.2.1 a.2.1 with hc | hc | hc
      · exact Or.inl hc
      · exact Or.inr ⟨hc, h4 hc.symm⟩
      · exact absurd hc (not_lt_of_le h3)
    · exact absurd hb (not_lt_of_le h1)
  · intro h hlt
    rcases hlt with h1 | ⟨e1, h1⟩
    · rcases h with h2 | ⟨e2, -⟩
      · exact absurd (lt_trans h1 h2) (lt_irrefl _)
      · exact absurd (e2 ▸ h1) (lt_irrefl _)
    · rcases h with h2 | ⟨e2, h2⟩
      · exact absurd (e1 ▸ h2) (lt_irrefl _)
      · rcases h1 with h1 | ⟨f1, h1⟩
        · rcases h2 with h2 | ⟨f2, -⟩
          · exact absurd (lt_trans h1 h2) (lt_irrefl _)
          · exact absurd (f2 ▸ h1) (lt_irrefl _)
        · rcases h2 with h2 | ⟨f2, h2⟩
          · exact absurd (f1 ▸ h2) (lt_irrefl _)
          · exact absurd h1 (not_lt_of_le h2)

lemma scanStep_eq (st : BState) (i : ℕ) (sc : ℚ × ℚ) (c : ℚ)
    (hx : sc.2 < 100) (hc : c < bigChi) :
    scanStep st i sc c =
      if lexLt3 (sc.1, sc.2, c) (minsOf st)
      then { good := some i, ymin := sc.1, xmin := sc.2, cmin := c }
      else st := by
  rcases lt_trichotomy sc.1 st.ymin with h1 | h1 | h1
  · simp [scanStep, scanStepY, scanStepX, lexLt3, minsOf, h1, le_of_lt h1, hx,
      le_of_lt hx, hc]
  · rcases lt_trichotomy sc.2 st.xmin with h2 | h2 | h2
    · simp [scanStep, scanStepY, scanStepX, lexLt3, minsOf, h1, le_of_eq h1,
        lt_irrefl, h2, le_of_lt h2, hc]
    · by_cases h3 : c < st.cmin
      · simp [scanStep, scanStepY, scanStepX, lexLt3, minsOf, h1, le_of_eq h1,
          lt_irrefl, h2, le_of_eq h2, h3]
      · simp [scanStep, scanStepY, scanStepX, lexLt3, minsOf, h1, le_of_eq h1,
          lt_irrefl, h2, le_of_eq h2, h3]
    · simp [scanStep, scanStepY, scanStepX, lexLt3, minsOf, h1, le_of_eq h1,
        lt_irrefl, not_le.mpr h2, not_lt.mpr (le_of_lt h2), ne_of_gt h2]
  · simp [scanStep, scanStepY, scanStepX, lexLt3, minsOf, not_le.mpr h1,
      not_lt.mpr (le_of_lt h1), ne_of_gt h1]

lemma scinEval_of_qualifies (cfg : Config) (hodo : Hodo) (n : ℕ) (raw : ℤ)
    (t : Track) (hq : qualifies cfg t) :
    scinEval cfg hodo n raw t =
      (some
        (if 1 < n then
          zapMin (scinPlaneWalk hodo cfg.fNPlanes raw).2.1 (hodo.nPaddles 3)
            (predCnt4 cfg hodo t) else 0,
         if 1 < n then
          zapMin (scinPlaneWalk hodo cfg.fNPlanes raw).1 (hodo.nPaddles 2)
            (predCnt3 cfg hodo t) else 0),
       (scinPlaneWalk hodo cfg.fNPlanes raw).2.2) := by
  simp [scinEval, hq]

lemma scinEval_of_not_qualifies (cfg : Config) (hodo : Hodo) (n : ℕ) (raw : ℤ)
    (t : Track) (hq : ¬ qualifies cfg t) :
    scinEval cfg hodo n raw t = (none, raw) := by
  simp [scinEval, hq]

lemma scanStepE_eq (st : BState) (e : ℕ × ℚ × ℚ × ℚ)
    (hx : e.2.2.1 < 100) (hc : e.2.2.2 < bigChi) :
    scanStepE st e = if lexLt3 (trOf e) (minsOf st) then mkB e else st := by
  unfold scanStepE trOf mkB
  rw [scanStep_eq st e.1 (e.2.1, e.2.2.1) e.2.2.2 hx hc]

lemma minsOf_mkB (e : ℕ × ℚ × ℚ × ℚ) : minsOf (mkB e) = trOf e := rfl

lemma lexFold_cases :
    ∀ (L : List (ℕ × ℚ × ℚ × ℚ)) (st : BState),
      (∀ e ∈ L, e.2.2.1 < 100 ∧ e.2.2.2 < bigChi) →
      (L.foldl scanStepE st = st ∨ ∃ e, e ∈ L ∧ L.foldl scanStepE st = mkB e)
  | [], st, _ => Or.inl rfl
  | e :: L, st, hb => by
    rw [List.foldl_cons]
    have hbL : ∀ x ∈ L, x.2.2.1 < 100 ∧ x.2.2.2 < bigChi :=
      fun x hx => hb x (by simp [hx])
    have hbe := hb e (by simp)
    rcases lexFold_cases L (scanStepE st e) hbL with h | ⟨e', he', h⟩
    · rw [h, scanStepE_eq st e hbe.1 hbe.2]
      by_cases hL : lexLt3 (trOf e) (minsOf st)
      · exact Or.inr ⟨e, by simp, by rw [if_pos hL]⟩
      · exact Or.inl (by rw [if_neg hL])
    · exact Or.inr ⟨e', by simp [he'], h⟩

lemma lexFold_not_lt :
    ∀ (L : List (ℕ × ℚ × ℚ × ℚ)) (st : BState),
      (∀ e ∈ L, e.2.2.1 < 100 ∧ e.2.2.2 < bigChi) →
      (∀ x, ¬ lexLt3 x (minsOf st) → ¬ lexLt3 x (minsOf (L.foldl scanStepE st)))
      ∧ (∀ e ∈ L, ¬ lexLt3 (trOf e) (minsOf (L.foldl scanStepE st)))
  | [], st, _ => ⟨fun _ h => h, by simp⟩
  | e :: L, st, hb => by
    have hbL : ∀ x ∈ L, x.2.2.1 < 100 ∧ x.2.2.2 < bigChi :=
      fun x hx => hb x (by simp [hx])
    have hbe := hb e (by simp)
    have hstep : ∀ x, ¬ lexLt3 x (minsOf st) → ¬ lexLt3 x (minsOf (scanStepE st e)) := by
      intro x hx hcon
      rw [scanStepE_eq st e hbe.1 hbe.2] at hcon
      by_cases hL : lexLt3 (trOf e) (minsOf st)
      · rw [if_pos hL, minsOf_mkB] at hcon
        exact hx (lexLt3_trans hcon hL)
      · rw [if_neg hL] at hcon
        exact hx hcon
    have hhead : ¬ lexLt3 (trOf e) (minsOf (scanStepE st e)) := by
      rw [scanStepE_eq st e hbe.1 hbe.2]
      by_cases hL : lexLt3 (trOf e) (minsOf st)
      · rw [if_pos hL, minsOf_mkB]
        exact lexLt3_irrefl _
      · rw [if_neg hL]
        exact hL
    obtain ⟨ihmono, ihmem⟩ := lexFold_not_lt L (scanStepE st e) hbL
    refine ⟨?_, ?_⟩
    · intro x hx
      rw [List.foldl_cons]
      exact ihmono x (hstep x hx)
    · intro x hx
      rw [List.foldl_cons]
      rcases List.mem_cons.mp hx with rfl | hx'
      · exact ihmono (trOf x) hhead
      · exact ihmem x hx'

lemma lexFold_main (L : List (ℕ × ℚ × ℚ × ℚ))
    (hb : ∀ e ∈ L, e.2.1 < 100 ∧ e.2.2.1 < 100 ∧ e.2.2.2 < bigChi)
    (hne : L ≠ []) :
    ∃ e, e ∈ L ∧ L.foldl scanStepE initB = mkB e
      ∧ ∀ x ∈ L, ¬ lexLt3 (trOf x) (trOf e) := by
  have hb' : ∀ e ∈ L, e.2.2.1 < 100 ∧ e.2.2.2 < bigChi :=
    fun e he => ⟨(hb e he).2.1, (hb e he).2.2⟩
  obtain ⟨e0, L', rfl⟩ : ∃ e0 L', L = e0 :: L' := by
    cases L with
    | nil => exact absurd rfl hne
    | cons a l => exact ⟨a, l, rfl⟩
  obtain ⟨hmono, hmem⟩ := lexFold_not_lt (e0 :: L') initB hb'
  have h0 : scanStepE initB e0 = mkB e0 := by
    rw [scanStepE_eq initB e0 (hb' e0 (by simp)).1 (hb' e0 (by simp)).2, if_pos]
    exact Or.inl (by simpa [minsOf, initB, trOf] using (hb e0 (by simp)).1)
  have hres : ∃ e, e ∈ e0 :: L'
      ∧ (e0 :: L').foldl scanStepE initB = mkB e := by
    rw [List.foldl_cons, h0]
    rcases lexFold_cases L' (mkB e0) (fun x hx => hb' x (by simp [hx])) with h | ⟨e', he', h⟩
    · exact ⟨e0, by simp, h⟩
    · exact ⟨e', by simp [he'], h⟩
  obtain ⟨e, he, heq⟩ := hres
  refine ⟨e, he, heq, ?_⟩
  intro x hx
  have := hmem x hx
  rw [heq, minsOf_mkB] at this
  exact this

lemma zapMin_lt (marked : ℤ → Bool) (n : ℕ) (cnt : ℤ) (hn : n ≤ 100)
    (hcnt1 : 1 ≤ cnt) (hcnt2 : cnt ≤ max 1 (n : ℤ)) :
    zapMin marked n cnt < 100 := by
  unfold zapMin
  refine foldl_induction (zapStep marked cnt) (fun st : ℚ × ℕ => st.1 < 100)
    (List.range n) ((0 : ℚ), (0 : ℕ)) (by norm_num) ?_
  intro st i hi hst
  have hi' : i < n := List.mem_range.mp hi
  have hd : ((cnt - (i : ℤ) - 1).natAbs : ℚ) < 100 := by
    have hz : (cnt - (i : ℤ) - 1).natAbs ≤ 99 := by
      have h1 : (n : ℤ) ≤ 100 := by exact_mod_cast hn
      have h2 : (i : ℤ) < (n : ℤ) := by exact_mod_cast hi'
      have h3 : cnt ≤ 100 := le_trans hcnt2 (max_le (by norm_num) h1)
      omega
    calc ((cnt - (i : ℤ) - 1).natAbs : ℚ) ≤ 99 := by exact_mod_cast hz
      _ < 100 := by norm_num
  unfold zapStep
  by_cases hm : marked (i : ℤ)
  · by_cases h1 : st.2 + 1 = 1
    · simpa [hm, h1] using hd
    · by_cases h2 : st.2 ≤ 5 ∧ ((cnt - (i : ℤ) - 1).natAbs : ℚ) < st.1
      · simpa [hm, h1, h2] using hd
      · simpa [hm, h1, h2] using hst
  · simpa [hm] using hst

lemma predCnt4_bounds (cfg : Config) (hodo : Hodo) (t : Track) :
    1 ≤ predCnt4 cfg hodo t ∧ predCnt4 cfg hodo t ≤ max 1 (hodo.nPaddles 3 : ℤ) := by
  unfold predCnt4
  refine ⟨le_max_right _ _, max_le ?_ (le_max_left _ _)⟩
  exact le_trans (min_le_right _ _) (le_max_right _ _)

lemma predCnt3_bounds (cfg : Config) (hodo : Hodo) (t : Track) :
    1 ≤ predCnt3 cfg hodo t ∧ predCnt3 cfg hodo t ≤ max 1 (hodo.nPaddles 2 : ℤ) := by
  unfold predCnt3
  refine ⟨le_max_right _ _, max_le ?_ (le_max_left _ _)⟩
  exact le_trans (min_le_right _ _) (le_max_right _ _)

lemma scinLoop_eq_foldl (cfg : Config) (hodo : Hodo) (n : ℕ) :
    ∀ (ts : List Track) (i : ℕ) (raw : ℤ) (st : BState),
      scinLoop cfg hodo n ts i raw st
        = (scinEntries cfg hodo n ts i raw).foldl scanStepE st
  | [], _, _, _ => rfl
  | t :: ts, i, raw, st => by
    by_cases hq : qualifies cfg t
    · simp only [scinLoop, scinEntries, scinEval_of_qualifies cfg hodo n raw t hq,
        List.foldl_cons]
      exact scinLoop_eq_foldl cfg hodo n ts (i + 1) _ _
    · simp only [scinLoop, scinEntries, scinEval_of_not_qualifies cfg hodo n raw t hq]
      exact scinLoop_eq_foldl cfg hodo n ts (i + 1) _ _

lemma scinEntries_mem (cfg : Config) (hodo : Hodo) (n : ℕ) :
    ∀ (ts : List Track) (i : ℕ) (raw : ℤ) (e : ℕ × ℚ × ℚ × ℚ),
      e ∈ scinEntries cfg hodo n ts i raw →
      ∃ k t, ts.get? k = some t ∧ e.1 = i + k ∧ qualifies cfg t
        ∧ e.2.2.2 = chi2PerDeg t
  | [], _, _, _ => by simp [scinEntries]
  | t :: ts, i, raw, e => by
    intro he
    by_cases hq : qualifies cfg t
    · rw [scinEntries, scinEval_of_qualifies cfg hodo n raw t hq] at he
      simp only at he
      rcases List.mem_cons.mp he with rfl | he'
      · exact ⟨0, t, rfl, by simp, hq, rfl⟩
      · obtain ⟨k, t', hget, hidx, hq', hc⟩ := scinEntries_mem cfg hodo n ts (i + 1) _ e he'
        exact ⟨k + 1, t', by simpa using hget, by omega, hq', hc⟩
    · rw [scinEntries, scinEval_of_not_qualifies cfg hodo n raw t hq] at he
      simp only at he
      obtain ⟨k, t', hget, hidx, hq', hc⟩ := scinEntries_mem cfg hodo n ts (i + 1) _ e he
      exact ⟨k + 1, t', by simpa using hget, by omega, hq', hc⟩

lemma scinEntries_eq_nil (cfg : Config) (hodo : Hodo) (n : ℕ) :
    ∀ (ts : List Track) (i : ℕ) (raw : ℤ),
      scinEntries cfg hodo n ts i raw = [] ↔ ∀ t ∈ ts, ¬ qualifies cfg t
  | [], _, _ => by simp [scinEntries]
  | t :: ts, i, raw => by
    by_cases hq : qualifies cfg t
    · rw [scinEntries, scinEval_of_qualifies cfg hodo n raw t hq]
      simp [hq]
    · rw [scinEntries, scinEval_of_not_qualifies cfg hodo n raw t hq]
      simp only
      rw [scinEntries_eq_nil cfg hodo n ts (i + 1) raw]
      constructor
      · intro h s hs
        rcases List.mem_cons.mp hs with rfl | hs'
        · exact hq
        · exact h s hs'
      · intro h s hs
        exact h s (by simp [hs])

lemma scinEntries_bounds (cfg : Config) (hodo : Hodo) (n : ℕ)
    (hp2 : hodo.nPaddles 2 ≤ 100) (hp3 : hodo.nPaddles 3 ≤ 100) :
    ∀ (ts : List Track) (i : ℕ) (raw : ℤ) (e : ℕ × ℚ × ℚ × ℚ),
      e ∈ scinEntries cfg hodo n ts i raw → e.2.1 < 100 ∧ e.2.2.1 < 100
  | [], _, _, _ => by simp [scinEntries]
  | t :: ts, i, raw, e => by
    intro he
    by_cases hq : qualifies cfg t
    · rw [scinEntries, scinEval_of_qualifies cfg hodo n raw t hq] at he
      simp only at he
      rcases List.mem_cons.mp he with rfl | he'
      · constructor
        · by_cases hn : 1 < n
          · simpa [hn] using
              zapMin_lt _ _ _ hp3 (predCnt4_bounds cfg hodo t).1
                (predCnt4_bounds cfg hodo t).2
          · simp [hn]
        · by_cases hn : 1 < n
          · simpa [hn] using
              zapMin_lt _ _ _ hp2 (predCnt3_bounds cfg hodo t).1
                (predCnt3_bounds cfg hodo t).2
          · simp [hn]
      · exact scinEntries_bounds cfg hodo n hp2 hp3 ts (i + 1) _ e he'
    · rw [scinEntries, scinEval_of_not_qualifies cfg hodo n raw t hq] at he
      simp only at he
      exact scinEntries_bounds cfg hodo n hp2 hp3 ts (i + 1) _ e he

lemma scinFallbackGo_spec (cfg : Config) :
    ∀ (ts : List Track) (i : ℕ) (st : Option ℕ × ℚ),
      ((scinFallbackGo cfg ts i st = st
          ∨ ∃ k t, ts.get? k = some t ∧ cfg.fSelNDegreesMin < t.ndof
              ∧ scinFallbackGo cfg ts i st = (some (i + k), chi2PerDeg t))
        ∧ (scinFallbackGo cfg ts i st).2 ≤ st.2
        ∧ (∀ k t, ts.get? k = some t → cfg.fSelNDegreesMin < t.ndof →
            ¬ (chi2PerDeg t < (scinFallbackGo cfg ts i st).2)))
  | [], i, st => by
    refine ⟨Or.inl rfl, le_refl _, ?_⟩
    intro k t hk
    simp at hk
  | t :: ts, i, st => by
    by_cases hsel : cfg.fSelNDegreesMin < t.ndof ∧ chi2PerDeg t < st.2
    · have hrec := scinFallbackGo_spec cfg ts (i + 1) (some i, chi2PerDeg t)
      have hgo : scinFallbackGo cfg (t :: ts) i st
          = scinFallbackGo cfg ts (i + 1) (some i, chi2PerDeg t) := by
        rw [scinFallbackGo, if_pos hsel]
      obtain ⟨h1, h2, h3⟩ := hrec
      rw [hgo]
      refine ⟨?_, le_trans h2 (le_of_lt hsel.2), ?_⟩
      · rcases h1 with h1 | ⟨k, t', hget, hdf, heq⟩
        · exact Or.inr ⟨0, t, rfl, hsel.1, by simpa using h1⟩
        · refine Or.inr ⟨k + 1, t', by simpa using hget, hdf, ?_⟩
          have hik : i + 1 + k = i + (k + 1) := by omega
          rw [heq, hik]
      · intro k t' hget hdf
        rcases k with _ | k
        · obtain rfl : t = t' := by simpa using hget
          intro hconlt
          exact absurd (lt_of_lt_of_le hconlt h2) (lt_irrefl _)
        · exact h3 k t' (by simpa using hget) hdf
    · have hrec := scinFallbackGo_spec cfg ts (i + 1) st
      have hgo : scinFallbackGo cfg (t :: ts) i st = scinFallbackGo cfg ts (i + 1) st := by
        rw [scinFallbackGo, if_neg hsel]
      obtain ⟨h1, h2, h3⟩ := hrec
      rw [hgo]
      refine ⟨?_, h2, ?_⟩
      · rcases h1 with h1 | ⟨k, t', hget, hdf, heq⟩
        · exact Or.inl h1
        · refine Or.inr ⟨k + 1, t', by simpa using hget, hdf, ?_⟩
          have hik : i + 1 + k = i + (k + 1) := by omega
          rw [heq, hik]
      · intro k t' hget hdf
        rcases k with _ | k
        · obtain rfl : t = t' := by simpa using hget
          intro hconlt
          have hnot : ¬ chi2PerDeg t < st.2 := fun hlt => hsel ⟨hdf, hlt⟩
          exact hnot (lt_of_lt_of_le hconlt h2)
        · exact h3 k t' (by simpa using hget) hdf

lemma markFail_get (c : PruneCut) :
    ∀ (ts : List Track) (ws : List (Bool × ℤ)) (k : ℕ) (t : Track) (w : Bool × ℤ),
      ts.get? k = some t → ws.get? k = some w →
      (markFail c ts ws).get? k
        = some (if !(c.pass t) then (false, w.2 + c.code) else w)
  | [], _, k, t, w => by
    intro h1 _
    simp at h1
  | _ :: _, [], k, t, w => by
    intro _ h2
    simp at h2
  | t0 :: ts, w0 :: ws, 0, t, w => by
    intro h1 h2
    obtain rfl : t0 = t := by simpa using h1
    obtain rfl : w0 = w := by simpa using h2
    simp [markFail]
  | t0 :: ts, w0 :: ws, k + 1, t, w => by
    intro h1 h2
    simpa [markFail] using
      markFail_get c ts ws k t w (by simpa using h1) (by simpa using h2)

lemma nGoodCount_pos_iff (c : PruneCut) :
    ∀ (ts : List Track) (ws : List (Bool × ℤ)),
      0 < nGoodCount c ts ws ↔
        ∃ k t w, ts.get? k = some t ∧ ws.get? k = some w
          ∧ c.pass t = true ∧ w.1 = true
  | [], ws => by simp [nGoodCount]
  | t0 :: ts, [] => by simp [nGoodCount]
  | t0 :: ts, w0 :: ws => by
    rw [nGoodCount]
    constructor
    · intro h
      by_cases hp : c.pass t0 && w0.1
      · obtain ⟨hp1, hp2⟩ := Bool.and_eq_true_iff.mp hp
        exact ⟨0, t0, w0, rfl, rfl, hp1, hp2⟩
      · have h' : 0 < nGoodCount c ts ws := by simpa [hp] using h
        obtain ⟨k, t, w, h1, h2, h3, h4⟩ := (nGoodCount_pos_iff c ts ws).mp h'
        exact ⟨k + 1, t, w, by simpa using h1, by simpa using h2, h3, h4⟩
    · rintro ⟨k, t, w, h1, h2, h3, h4⟩
      rcases k with _ | k
      · obtain rfl : t0 = t := by simpa using h1
        obtain rfl : w0 = w := by simpa using h2
        simp [h3, h4]
      · have h' : 0 < nGoodCount c ts ws :=
          (nGoodCount_pos_iff c ts ws).mpr
            ⟨k, t, w, by simpa using h1, by simpa using h2, h3, h4⟩
        exact lt_of_lt_of_le h' (Nat.le_add_left _ _)

lemma markFail_length (c : PruneCut) :
    ∀ (ts : List Track) (ws : List (Bool × ℤ)), ws.length = ts.length →
      (markFail c ts ws).length = ts.length
  | [], [], _ => by simp [markFail]
  | [], w :: ws, h => by simp at h
  | t :: ts, [], h => by simp at h
  | t :: ts, w :: ws, h => by
    simp only [markFail, List.length_cons]
    rw [markFail_length c ts ws (by simpa using h)]

lemma softCut_length (tracks : List Track) (ws : List (Bool × ℤ)) (c : PruneCut)
    (h : ws.length = tracks.length) :
    (softCut tracks ws c).length = tracks.length := by
  unfold softCut
  by_cases hg : 0 < nGoodCount c tracks ws
  · rw [if_pos hg]
    exact markFail_length c tracks ws h
  · rw [if_neg hg]
    exact h

lemma softCut_keeps (tracks : List Track) (ws : List (Bool × ℤ)) (c : PruneCut)
    (hk : ∃ k t w, tracks.get? k = some t ∧ ws.get? k = some w ∧ w.1 = true) :
    ∃ k t w, tracks.get? k = some t ∧ (softCut tracks ws c).get? k = some w
      ∧ w.1 = true := by
  unfold softCut
  by_cases hg : 0 < nGoodCount c tracks ws
  · rw [if_pos hg]
    obtain ⟨k, t, w, h1, h2, h3, h4⟩ := (nGoodCount_pos_iff c tracks ws).mp hg
    refine ⟨k, t, if !(c.pass t) then (false, w.2 + c.code) else w, h1,
      markFail_get c tracks ws k t w h1 h2, ?_⟩
    simp [h3, h4]
  · rw [if_neg hg]
    exact hk

lemma ws_foldl_length (tracks : List Track) :
    ∀ (cs : List PruneCut) (ws : List (Bool × ℤ)), ws.length = tracks.length →
      (cs.foldl (softCut tracks) ws).length = tracks.length
  | [], ws, h => h
  | c :: cs, ws, h => by
    rw [List.foldl_cons]
    exact ws_foldl_length tracks cs _ (softCut_length tracks ws c h)

lemma ws_foldl_keeps (tracks : List Track) :
    ∀ (cs : List PruneCut) (ws : List (Bool × ℤ)),
      (∃ k t w, tracks.get? k = some t ∧ ws.get? k = some w ∧ w.1 = true) →
      ∃ k t w, tracks.get? k = some t ∧ (cs.foldl (softCut tracks) ws).get? k = some w
        ∧ w.1 = true
  | [], ws, hk => hk
  | c :: cs, ws, hk => by
    rw [List.foldl_cons]
    exact ws_foldl_keeps tracks cs _ (softCut_keeps tracks ws c hk)

lemma initWs_kept (tracks : List Track) (hne : tracks ≠ []) :
    ∃ k t w, tracks.get? k = some t ∧ (initWs tracks).get? k = some w
      ∧ w.1 = true := by
  obtain ⟨t, ts, rfl⟩ := List.exists_cons_of_ne_nil hne
  exact ⟨0, t, (true, 0), rfl, rfl, rfl⟩

lemma pruneWsAfter_zero (sqrtFn : ℚ → ℚ) (cfg : Config) (hodo : Hodo)
    (tracks : List Track) :
    pruneWsAfter sqrtFn cfg hodo tracks 0 = initWs tracks := by
  simp [pruneWsAfter]

lemma pruneWsAfter_succ (sqrtFn : ℚ → ℚ) (cfg : Config) (hodo : Hodo)
    (tracks : List Track) (n : ℕ) (cut : PruneCut)
    (hcut : (pruneCuts sqrtFn cfg hodo).get? n = some cut) :
    pruneWsAfter sqrtFn cfg hodo tracks (n + 1)
      = softCut tracks (pruneWsAfter sqrtFn cfg hodo tracks n) cut := by
  unfold pruneWsAfter
  rw [List.take_succ, ← List.get?_eq_getElem?, hcut]
  simp [List.foldl_append]

lemma pruneWs_eq_after (sqrtFn : ℚ → ℚ) (cfg : Config) (hodo : Hodo)
    (tracks : List Track) :
    pruneWs sqrtFn cfg hodo tracks
      = pruneWsAfter sqrtFn cfg hodo tracks (pruneCuts sqrtFn cfg hodo).length := by
  unfold pruneWs pruneWsAfter
  rw [List.take_length]

lemma pruneWsAfter_kept (sqrtFn : ℚ → ℚ) (cfg : Config) (hodo : Hodo)
    (tracks : List Track) (hne : tracks ≠ []) (n : ℕ) :
    ∃ k t w, tracks.get? k = some t
      ∧ (pruneWsAfter sqrtFn cfg hodo tracks n).get? k = some w ∧ w.1 = true := by
  unfold pruneWsAfter
  exact ws_foldl_keeps tracks _ _ (initWs_kept tracks hne)

lemma pruneSelectGo_spec :
    ∀ (ts : List Track) (ws : List (Bool × ℤ)) (i : ℕ) (st : ℕ × ℚ),
      ((pruneSelectGo ts ws i st = st
          ∨ ∃ k t w, ts.get? k = some t ∧ ws.get? k = some w ∧ w.1 = true
              ∧ pruneSelectGo ts ws i st = (i + k, chi2PerDeg t))
        ∧ (pruneSelectGo ts ws i st).2 ≤ st.2
        ∧ (∀ k t w, ts.get? k = some t → ws.get? k = some w → w.1 = true →
            ¬ (chi2PerDeg t < (pruneSelectGo ts ws i st).2)))
  | [], ws, i, st => by
    refine ⟨Or.inl rfl, le_refl _, ?_⟩
    intro k t w hk
    simp at hk
  | t :: ts, [], i, st => by
    refine ⟨Or.inl rfl, le_refl _, ?_⟩
    intro k t' w _ hw
    simp at hw
  | t :: ts, w :: ws, i, st => by
    by_cases hsel : chi2PerDeg t < st.2 ∧ w.1 = true
    · have hrec := pruneSelectGo_spec ts ws (i + 1) (i, chi2PerDeg t)
      have hgo : pruneSelectGo (t :: ts) (w :: ws) i st
          = pruneSelectGo ts ws (i + 1) (i, chi2PerDeg t) := by
        rw [pruneSelectGo, if_pos hsel]
      obtain ⟨h1, h2, h3⟩ := hrec
      rw [hgo]
      refine ⟨?_, le_trans h2 (le_of_lt hsel.1), ?_⟩
      · rcases h1 with h1 | ⟨k, t', w', hget, hw, hkeep, heq⟩
        · exact Or.inr ⟨0, t, w, rfl, rfl, hsel.2, by simpa using h1⟩
        · refine Or.inr ⟨k + 1, t', w', by simpa using hget, by simpa using hw,
            hkeep, ?_⟩
          have hik : i + 1 + k = i + (k + 1) := by omega
          rw [heq, hik]
      · intro k t' w' hget hw hkeep
        rcases k with _ | k
        · obtain rfl : t = t' := by simpa using hget
          intro hconlt
          exact absurd (lt_of_lt_of_le hconlt h2) (lt_irrefl _)
        · exact h3 k t' w' (by simpa using hget) (by simpa using hw) hkeep
    · have hrec := pruneSelectGo_spec ts ws (i + 1) st
      have hgo : pruneSelectGo (t :: ts) (w :: ws) i st
          = pruneSelectGo ts ws (i + 1) st := by
        rw [pruneSelectGo, if_neg hsel]
      obtain ⟨h1, h2, h3⟩ := hrec
      rw [hgo]
      refine ⟨?_, h2, ?_⟩
      · rcases h1 with h1 | ⟨k, t', w', hget, hw, hkeep, heq⟩
        · exact Or.inl h1
        · refine Or.inr ⟨k + 1, t', w', by simpa using hget, by simpa using hw,
            hkeep, ?_⟩
          have hik : i + 1 + k = i + (k + 1) := by omega
          rw [heq, hik]
      · intro k t' w' hget hw hkeep
        rcases k with _ | k
        · obtain rfl : t = t' := by simpa using hget
          obtain rfl : w = w' := by simpa using hw
          intro hconlt
          have hnot : ¬ chi2PerDeg t < st.2 := fun hlt => hsel ⟨hlt, hkeep⟩
          exact hnot (lt_of_lt_of_le hconlt h2)
        · exact h3 k t' w' (by simpa using hget) (by simpa using hw) hkeep

lemma trackCalc_strategyA (sqrtFn : ℚ → ℚ) (cfg : Config) (hodo : Hodo)
    (tracks : List Track) (prev : Option ℕ)
    (h0 : cfg.fSelUsingScin = 0) (h1 : cfg.fSelUsingPrune = 0) :
    trackCalc sqrtFn cfg hodo tracks prev
      = (cfg, (strategyA cfg tracks).1, (strategyA cfg tracks).2) := by
  unfold trackCalc
  simp [h0, h1]

/-- Claim C2: when neither the scintillator mode nor the prune mode is
enabled (Strategy A) — with track sorting enabled and a non-empty candidate
set, the golden track (index 0 of the sorted list) has the minimum
chi2/ndof among all candidates of the event; with sorting disabled the
golden track is the candidate at index 0 of the original order regardless of
quality; and with an empty candidate set the golden reference is null.  The
collaborator sort is modelled from the spec as a stable ascending sort by
chi2/ndof; `0 < ndof` makes the exact rational chi2/ndof agree with the
double computation. -/
theorem C2_strategyA (sqrtFn : ℚ → ℚ) (cfg : Config) (hodo : Hodo)
    (tracks : List Track) (prev : Option ℕ)
    (hA : cfg.fSelUsingScin = 0 ∧ cfg.fSelUsingPrune = 0)
    (hnd : ∀ t ∈ tracks, 0 < t.ndof) :
    (cfg.trSorting = true → tracks ≠ [] →
      ∃ g r, (trackCalc sqrtFn cfg hodo tracks prev).2.1 = g :: r
        ∧ (trackCalc sqrtFn cfg hodo tracks prev).2.2 = some 0
        ∧ g ∈ tracks ∧ ∀ t ∈ tracks, chi2PerDeg g ≤ chi2PerDeg t)
    ∧ (cfg.trSorting = false →
        (trackCalc sqrtFn cfg hodo tracks prev).2.1 = tracks
        ∧ (tracks ≠ [] → (trackCalc sqrtFn cfg hodo tracks prev).2.2 = some 0))
    ∧ (tracks = [] → (trackCalc sqrtFn cfg hodo tracks prev).2.2 = none) := by
  rw [trackCalc_strategyA sqrtFn cfg hodo tracks prev hA.1 hA.2]
  refine ⟨?_, ?_, ?_⟩
  · intro hs hne
    rcases hst : sortTracks tracks with _ | ⟨g, r⟩
    · exact absurd ((sortTracks_eq_nil_iff tracks).mp hst) hne
    · refine ⟨g, r, ?_, ?_, ?_, ?_⟩
      · simp [strategyA, hs, hst]
      · simp [strategyA, List.length_pos.mpr hne]
      · exact (mem_sortTracks g tracks).mp (by simp [hst])
      · exact sortTracks_head_min tracks g r hst
  · intro hs
    refine ⟨by simp [strategyA, hs], ?_⟩
    intro hne
    simp [strategyA, List.length_pos.mpr hne]
  · intro h
    subst h
    simp [strategyA]

theorem C2_strategyA_witness :
    ((aCfg.fSelUsingScin = 0 ∧ aCfg.fSelUsingPrune = 0)
      ∧ (∀ t ∈ [tHi, tLo], 0 < t.ndof))
    ∧ ((aCfg.trSorting = true → [tHi, tLo] ≠ [] →
        ∃ g r, (trackCalc oneSqrt aCfg emptyHodo [tHi, tLo] none).2.1 = g :: r
          ∧ (trackCalc oneSqrt aCfg emptyHodo [tHi, tLo] none).2.2 = some 0
          ∧ g ∈ [tHi, tLo] ∧ ∀ t ∈ [tHi, tLo], chi2PerDeg g ≤ chi2PerDeg t)
      ∧ (aCfg.trSorting = false →
          (trackCalc oneSqrt aCfg emptyHodo [tHi, tLo] none).2.1 = [tHi, tLo]
          ∧ ([tHi, tLo] ≠ [] →
            (trackCalc oneSqrt aCfg emptyHodo [tHi, tLo] none).2.2 = some 0))
      ∧ ([tHi, tLo] = [] →
          (trackCalc oneSqrt aCfg emptyHodo [tHi, tLo] none).2.2 = none)) :=
  ⟨⟨⟨rfl, rfl⟩, by
      intro t ht
      rcases List.mem_cons.mp ht with rfl | ht'
      · norm_num [tHi, baseTrack]
      · rcases List.mem_cons.mp ht' with rfl | ht''
        · norm_num [tLo, baseTrack]
        · simp at ht''⟩,
    C2_strategyA oneSqrt aCfg emptyHodo [tHi, tLo] none ⟨rfl, rfl⟩ (by
      intro t ht
      rcases List.mem_cons.mp ht with rfl | ht'
      · norm_num [tHi, baseTrack]
      · rcases List.mem_cons.mp ht' with rfl | ht''
        · norm_num [tLo, baseTrack]
        · simp at ht'')⟩

/-- Claim C3: in the prune branch, for every event with at least one
candidate and for each cut of the pipeline in its fixed order: the cut is
enforced — every candidate failing it is marked not-kept and its rejection
word gains the cut's distinct code contribution (`markFail`) — if and only
if at least one candidate currently marked kept passes the cut; otherwise
the workspace is left untouched.  Consequently, after every prefix of the
pipeline the kept set is non-empty.  The code contributions of the cuts are
pairwise distinct. -/
theorem C3_prune_soft_cuts (sqrtFn : ℚ → ℚ) (cfg : Config) (hodo : Hodo)
    (tracks : List Track) (hne : tracks ≠ []) :
    List.Pairwise (fun a b => a.code ≠ b.code) (pruneCuts sqrtFn cfg hodo)
    ∧ (∀ n cut, (pruneCuts sqrtFn cfg hodo).get? n = some cut →
        ((∃ k t w, tracks.get? k = some t
            ∧ (pruneWsAfter sqrtFn cfg hodo tracks n).get? k = some w
            ∧ w.1 = true ∧ cut.pass t = true) →
          pruneWsAfter sqrtFn cfg hodo tracks (n + 1)
            = markFail cut tracks (pruneWsAfter sqrtFn cfg hodo tracks n))
        ∧ ((¬ ∃ k t w, tracks.get? k = some t
              ∧ (pruneWsAfter sqrtFn cfg hodo tracks n).get? k = some w
              ∧ w.1 = true ∧ cut.pass t = true) →
          pruneWsAfter sqrtFn cfg hodo tracks (n + 1)
            = pruneWsAfter sqrtFn cfg hodo tracks n))
    ∧ (∀ n, ∃ k t w, tracks.get? k = some t
        ∧ (pruneWsAfter sqrtFn cfg hodo tracks n).get? k = some w
        ∧ w.1 = true) := by
  refine ⟨?_, ?_, fun n => pruneWsAfter_kept sqrtFn cfg hodo tracks hne n⟩
  · norm_num [pruneCuts, List.pairwise_cons]
  · intro n cut hcut
    rw [pruneWsAfter_succ sqrtFn cfg hodo tracks n cut hcut]
    constructor
    · intro hex
      unfold softCut
      rw [if_pos]
      rw [nGoodCount_pos_iff]
      obtain ⟨k, t, w, h1, h2, h3, h4⟩ := hex
      exact ⟨k, t, w, h1, h2, h4, h3⟩
    · intro hnex
      unfold softCut
      rw [if_neg]
      intro hpos
      obtain ⟨k, t, w, h1, h2, h3, h4⟩ := (nGoodCount_pos_iff cut tracks _).mp hpos
      exact hnex ⟨k, t, w, h1, h2, h4, h3⟩

theorem C3_prune_soft_cuts_witness :
    ([pruneT] ≠ [])
    ∧ (List.Pairwise (fun a b => a.code ≠ b.code) (pruneCuts oneSqrt cCfg emptyHodo)
      ∧ (∀ n cut, (pruneCuts oneSqrt cCfg emptyHodo).get? n = some cut →
          ((∃ k t w, [pruneT].get? k = some t
              ∧ (pruneWsAfter oneSqrt cCfg emptyHodo [pruneT] n).get? k = some w
              ∧ w.1 = true ∧ cut.pass t = true) →
            pruneWsAfter oneSqrt cCfg emptyHodo [pruneT] (n + 1)
              = markFail cut [pruneT] (pruneWsAfter oneSqrt cCfg emptyHodo [pruneT] n))
          ∧ ((¬ ∃ k t w, [pruneT].get? k = some t
                ∧ (pruneWsAfter oneSqrt cCfg emptyHodo [pruneT] n).get? k = some w
                ∧ w.1 = true ∧ cut.pass t = true) →
            pruneWsAfter oneSqrt cCfg emptyHodo [pruneT] (n + 1)
              = pruneWsAfter oneSqrt cCfg emptyHodo [pruneT] n))
      ∧ (∀ n, ∃ k t w, [pruneT].get? k = some t
          ∧ (pruneWsAfter oneSqrt cCfg emptyHodo [pruneT] n).get? k = some w
          ∧ w.1 = true)) :=
  ⟨List.cons_ne_nil _ _,
    C3_prune_soft_cuts oneSqrt cCfg emptyHodo [pruneT] (List.cons_ne_nil _ _)⟩

/-- Claim C4 (amended): in the scin branch, provided every computed distance
score is below the `fX2Dmin`/`fY2Dmin` sentinel 100 (guaranteed here by
paddle counts of at most 100) and every candidate's chi2/ndof is below the
`fChi2Min` sentinel `1e10`, the golden track is a candidate that passes the
degrees-of-freedom and range cuts whose computed score pair
(Y-plane distance, X-plane distance) is lexicographically minimal (Y primary)
among all passing candidates, and among passing candidates sharing its score
pair its chi2/ndof is minimal.  `scinEntries` lists the passing candidates
with their computed scores and chi2/ndof. -/
theorem C4_scin_lex_selection (cfg : Config) (hodo : Hodo) (tracks : List Track)
    (prev : Option ℕ)
    (hp2 : hodo.nPaddles 2 ≤ 100) (hp3 : hodo.nPaddles 3 ≤ 100)
    (hc : ∀ t ∈ tracks, 0 < t.ndof ∧ chi2PerDeg t < bigChi)
    (hq : ∃ t ∈ tracks, qualifies cfg t) :
    ∃ i y x c,
      strategyB cfg hodo tracks prev = some i
      ∧ (i, y, x, c) ∈ scinEntries cfg hodo tracks.length tracks 0 (-1)
      ∧ (∃ t, tracks.get? i = some t ∧ qualifies cfg t ∧ c = chi2PerDeg t)
      ∧ (∀ j y' x' c',
          (j, y', x', c') ∈ scinEntries cfg hodo tracks.length tracks 0 (-1) →
          (y < y' ∨ (y = y' ∧ x ≤ x')) ∧ (y = y' → x = x' → c ≤ c')) := by
  obtain ⟨t0, ht0, hq0⟩ := hq
  have hne : tracks ≠ [] := by rintro rfl; simp at ht0
  have hEne : scinEntries cfg hodo tracks.length tracks 0 (-1) ≠ [] := by
    intro h
    exact ((scinEntries_eq_nil cfg hodo tracks.length tracks 0 (-1)).mp h) t0 ht0 hq0
  have hb : ∀ e ∈ scinEntries cfg hodo tracks.length tracks 0 (-1),
      e.2.1 < 100 ∧ e.2.2.1 < 100 ∧ e.2.2.2 < bigChi := by
    intro e he
    obtain ⟨hy, hx⟩ :=
      scinEntries_bounds cfg hodo tracks.length hp2 hp3 tracks 0 (-1) e he
    obtain ⟨k, t, hget, -, -, hcc⟩ :=
      scinEntries_mem cfg hodo tracks.length tracks 0 (-1) e he
    have ht : t ∈ tracks := List.get?_mem hget
    exact ⟨hy, hx, hcc ▸ (hc t ht).2⟩
  obtain ⟨e, heE, heq, hmin⟩ :=
    lexFold_main (scinEntries cfg hodo tracks.length tracks 0 (-1)) hb hEne
  have hloop : scinLoop cfg hodo tracks.length tracks 0 (-1) initB = mkB e := by
    rw [scinLoop_eq_foldl cfg hodo tracks.length tracks 0 (-1) initB, heq]
  have hlen : 0 < tracks.length := List.length_pos.mpr hne
  have hSB : strategyB cfg hodo tracks prev = some e.1 := by
    unfold strategyB
    rw [if_pos hlen, hloop]
    rfl
  obtain ⟨k, t, hget, hidx, hqk, hck⟩ :=
    scinEntries_mem cfg hodo tracks.length tracks 0 (-1) e heE
  refine ⟨e.1, e.2.1, e.2.2.1, e.2.2.2, hSB, heE, ⟨t, ?_, hqk, hck⟩, ?_⟩
  · rw [hidx]
    simpa using hget
  · intro j y' x' c' hj
    have hnl := hmin (j, y', x', c') hj
    rw [not_lexLt3_iff] at hnl
    unfold lexLe3 trOf at hnl
    simp only at hnl
    constructor
    · rcases hnl with h | ⟨h1, h2⟩
      · exact Or.inl h
      · rcases h2 with h2 | ⟨h3, h4⟩
        · exact Or.inr ⟨h1, le_of_lt h2⟩
        · exact Or.inr ⟨h1, le_of_eq h3⟩
    · intro hy hx
      rcases hnl with h | ⟨h1, h2⟩
      · rw [hy] at h
        exact absurd h (lt_irrefl _)
      · rcases h2 with h2 | ⟨h3, h4⟩
        · rw [hx] at h2
          exact absurd h2 (lt_irrefl _)
        · exact h4

theorem C4_scin_lex_selection_witness :
    (emptyHodo.nPaddles 2 ≤ 100 ∧ emptyHodo.nPaddles 3 ≤ 100
      ∧ (∀ t ∈ [baseTrack], 0 < t.ndof ∧ chi2PerDeg t < bigChi)
      ∧ (∃ t ∈ [baseTrack], qualifies bCfg t))
    ∧ (∃ i y x c,
        strategyB bCfg emptyHodo [baseTrack] none = some i
        ∧ (i, y, x, c) ∈ scinEntries bCfg emptyHodo [baseTrack].length [baseTrack] 0 (-1)
        ∧ (∃ t, [baseTrack].get? i = some t ∧ qualifies bCfg t ∧ c = chi2PerDeg t)
        ∧ (∀ j y' x' c',
            (j, y', x', c') ∈ scinEntries bCfg emptyHodo [baseTrack].length [baseTrack] 0 (-1) →
            (y < y' ∨ (y = y' ∧ x ≤ x')) ∧ (y = y' → x = x' → c ≤ c'))) :=
  ⟨⟨by norm_num [emptyHodo], by norm_num [emptyHodo],
    by
      intro t ht
      rcases List.mem_cons.mp ht with rfl | ht'
      · norm_num [baseTrack, chi2PerDeg, bigChi]
      · simp at ht',
    ⟨baseTrack, by simp, by norm_num [qualifies, bCfg, baseTrack]⟩⟩,
    C4_scin_lex_selection bCfg emptyHodo [baseTrack] none
      (by norm_num [emptyHodo]) (by norm_num [emptyHodo])
      (by
        intro t ht
        rcases List.mem_cons.mp ht with rfl | ht'
        · norm_num [baseTrack, chi2PerDeg, bigChi]
        · simp at ht')
      ⟨baseTrack, by simp, by norm_num [qualifies, bCfg, baseTrack]⟩⟩

/-- Claim C4 as stated is false on the code: a candidate that passes the
degrees-of-freedom and range cuts but has chi2/ndof `2e10`, at or above the
`fChi2Min` sentinel `1e10`, is never selected — with it as the only
candidate, no golden track is designated at all (the incoming null golden is
left in place), although a passing candidate exists. -/
theorem C4_counterexample :
    qualifies bCfg hugeTrack
    ∧ chi2PerDeg hugeTrack = 20000000000
    ∧ strategyB bCfg emptyHodo [hugeTrack] none = none := by
  have hq : qualifies bCfg hugeTrack := by
    norm_num [qualifies, bCfg, hugeTrack, baseTrack]
  refine ⟨hq, by norm_num [chi2PerDeg, hugeTrack, baseTrack], ?_⟩
  unfold strategyB
  rw [if_pos (by norm_num : 0 < ([hugeTrack].length))]
  have hloop : scinLoop bCfg emptyHodo ([hugeTrack].length) [hugeTrack] 0 (-1) initB
      = initB := by
    simp only [scinLoop, scinEval_of_qualifies bCfg emptyHodo ([hugeTrack].length)
      (-1) hugeTrack hq]
    norm_num [scanStep, scanStepY, scanStepX, initB, bigChi, chi2PerDeg,
      hugeTrack, baseTrack]
  rw [hloop]
  have hfb : scinFallback bCfg [hugeTrack] = (none, bigChi) := by
    norm_num [scinFallback, scinFallbackGo, bCfg, chi2PerDeg, hugeTrack,
      baseTrack, bigChi]
  rw [show initB.good = none from rfl, hfb]

/-- Claim C5 (amended): in the scin branch, if no candidate passes the
combined degrees-of-freedom and range cuts, all candidates are re-scanned
with only the degrees-of-freedom cut (provided chi2/ndof values are below
the `1e10` sentinel) and one with the smallest chi2/ndof among those passing
becomes golden; if no candidate passes the degrees-of-freedom cut in this
fallback re-scan, the golden member is left unchanged at its previous value
(it is NOT cleared). -/
theorem C5_scin_fallback (cfg : Config) (hodo : Hodo) (tracks : List Track)
    (prev : Option ℕ)
    (hnoq : ∀ t ∈ tracks, ¬ qualifies cfg t)
    (hne : tracks ≠ [])
    (hc : ∀ t ∈ tracks, 0 < t.ndof ∧ chi2PerDeg t < bigChi) :
    ((∃ t ∈ tracks, cfg.fSelNDegreesMin < t.ndof) →
      ∃ j t, strategyB cfg hodo tracks prev = some j ∧ tracks.get? j = some t
        ∧ cfg.fSelNDegreesMin < t.ndof
        ∧ ∀ k t', tracks.get? k = some t' → cfg.fSelNDegreesMin < t'.ndof →
            chi2PerDeg t ≤ chi2PerDeg t')
    ∧ ((∀ t ∈ tracks, ¬ cfg.fSelNDegreesMin < t.ndof) →
        strategyB cfg hodo tracks prev = prev) := by
  have hE : scinEntries cfg hodo tracks.length tracks 0 (-1) = [] :=
    (scinEntries_eq_nil cfg hodo tracks.length tracks 0 (-1)).mpr hnoq
  have hloop : scinLoop cfg hodo tracks.length tracks 0 (-1) initB = initB := by
    rw [scinLoop_eq_foldl cfg hodo tracks.length tracks 0 (-1) initB, hE]
    rfl
  have hlen : 0 < tracks.length := List.length_pos.mpr hne
  have hSB : strategyB cfg hodo tracks prev
      = (match (scinFallback cfg tracks).1 with
          | some j => some j
          | none => prev) := by
    unfold strategyB
    rw [if_pos hlen, hloop]
    rfl
  obtain ⟨hP1, hP2, hP3⟩ := scinFallbackGo_spec cfg tracks 0 (none, bigChi)
  constructor
  · rintro ⟨tdf, htdf, hdf⟩
    rcases hP1 with h1 | ⟨k, t, hget, hdfk, heqk⟩
    · exfalso
      obtain ⟨kk, hkk⟩ := List.mem_iff_get?.mp htdf
      have hhh := hP3 kk tdf hkk hdf
      rw [h1] at hhh
      exact hhh (hc tdf htdf).2
    · refine ⟨k, t, ?_, hget, hdfk, ?_⟩
      · rw [hSB]
        have hfb : (scinFallback cfg tracks).1 = some k := by
          unfold scinFallback
          rw [heqk]
          simp
        rw [hfb]
      · intro k' t' hget' hdf'
        have hhh := hP3 k' t' hget' hdf'
        have h2 : (scinFallbackGo cfg tracks 0 (none, bigChi)).2 = chi2PerDeg t := by
          rw [heqk]
        rw [h2] at hhh
        exact le_of_not_lt hhh
  · intro hnodf
    rcases hP1 with h1 | ⟨k, t, hget, hdfk, heqk⟩
    · rw [hSB]
      have hfb : (scinFallback cfg tracks).1 = none := by
        unfold scinFallback
        rw [h1]
      rw [hfb]
    · exact absurd hdfk (hnodf t (List.get?_mem hget))

theorem C5_scin_fallback_witness :
    ((∀ t ∈ [badTrack], ¬ qualifies bCfg t) ∧ [badTrack] ≠ []
      ∧ (∀ t ∈ [badTrack], 0 < t.ndof ∧ chi2PerDeg t < bigChi))
    ∧ (((∃ t ∈ [badTrack], bCfg.fSelNDegreesMin < t.ndof) →
        ∃ j t, strategyB bCfg emptyHodo [badTrack] (some 3) = some j
          ∧ [badTrack].get? j = some t
          ∧ bCfg.fSelNDegreesMin < t.ndof
          ∧ ∀ k t', [badTrack].get? k = some t' → bCfg.fSelNDegreesMin < t'.ndof →
              chi2PerDeg t ≤ chi2PerDeg t')
      ∧ ((∀ t ∈ [badTrack], ¬ bCfg.fSelNDegreesMin < t.ndof) →
          strategyB bCfg emptyHodo [badTrack] (some 3) = some 3)) :=
  ⟨⟨by
      intro t ht
      rcases List.mem_cons.mp ht with rfl | ht'
      · norm_num [qualifies, bCfg, badTrack, baseTrack]
      · simp at ht',
    List.cons_ne_nil _ _,
    by
      intro t ht
      rcases List.mem_cons.mp ht with rfl | ht'
      · norm_num [badTrack, baseTrack, chi2PerDeg, bigChi]
      · simp at ht'⟩,
    C5_scin_fallback bCfg emptyHodo [badTrack] (some 3)
      (by
        intro t ht
        rcases List.mem_cons.mp ht with rfl | ht'
        · norm_num [qualifies, bCfg, badTrack, baseTrack]
        · simp at ht')
      (List.cons_ne_nil _ _)
      (by
        intro t ht
        rcases List.mem_cons.mp ht with rfl | ht'
        · norm_num [badTrack, baseTrack, chi2PerDeg, bigChi]
        · simp at ht')⟩

/-- Claim C5 as stated is false on the code: with a single candidate that
fails the degrees-of-freedom cut, the fallback re-scan designates nothing
and the golden member keeps its value from before the event (here `some 7`,
a previous event's reference) instead of being cleared to null. -/
theorem C5_counterexample :
    (¬ qualifies bCfg noDfTrack)
    ∧ (¬ bCfg.fSelNDegreesMin < noDfTrack.ndof)
    ∧ strategyB bCfg emptyHodo [noDfTrack] (some 7) = some 7 := by
  have hnq : ¬ qualifies bCfg noDfTrack := by
    norm_num [qualifies, bCfg, noDfTrack, baseTrack]
  refine ⟨hnq, by norm_num [bCfg, noDfTrack, baseTrack], ?_⟩
  unfold strategyB
  rw [if_pos (by norm_num : 0 < ([noDfTrack].length))]
  have hloop : scinLoop bCfg emptyHodo ([noDfTrack].length) [noDfTrack] 0 (-1) initB
      = initB := by
    simp only [scinLoop,
      scinEval_of_not_qualifies bCfg emptyHodo ([noDfTrack].length) (-1) noDfTrack hnq]
  rw [hloop]
  have hfb : scinFallback bCfg [noDfTrack] = (none, bigChi) := by
    norm_num [scinFallback, scinFallbackGo, bCfg, noDfTrack, baseTrack]
  rw [show initB.good = none from rfl, hfb]

/-- Claim C6 (amended): after the prune pipeline finishes, provided every
candidate's chi2/ndof is below the `fChi2Min` sentinel `1e10`, the golden
track is a kept candidate with the smallest chi2/ndof among kept candidates
(the kept set is never empty when candidates exist, by the soft-cut
invariant); an empty candidate set clears the golden reference; there is no
fallback to an unpruned scan. -/
theorem C6_prune_golden (sqrtFn : ℚ → ℚ) (cfg : Config) (hodo : Hodo)
    (tracks : List Track) (hne : tracks ≠ [])
    (hc : ∀ t ∈ tracks, 0 < t.ndof ∧ chi2PerDeg t < bigChi) :
    (∃ i t w, strategyC sqrtFn cfg hodo tracks = some i
      ∧ tracks.get? i = some t
      ∧ (pruneWs sqrtFn cfg hodo tracks).get? i = some w
      ∧ w.1 = true
      ∧ ∀ k t' w', tracks.get? k = some t'
          → (pruneWs sqrtFn cfg hodo tracks).get? k = some w' → w'.1 = true
          → chi2PerDeg t ≤ chi2PerDeg t')
    ∧ strategyC sqrtFn cfg hodo [] = none := by
  refine ⟨?_, by simp [strategyC]⟩
  have hkept := pruneWsAfter_kept sqrtFn cfg hodo tracks hne
    (pruneCuts sqrtFn cfg hodo).length
  rw [← pruneWs_eq_after] at hkept
  obtain ⟨k, t, w, hgt, hgw, hw⟩ := hkept
  obtain ⟨hP1, hP2, hP3⟩ :=
    pruneSelectGo_spec tracks (pruneWs sqrtFn cfg hodo tracks) 0 (0, bigChi)
  rcases hP1 with h1 | ⟨k', t', w', hgt', hgw', hw', heq'⟩
  · exfalso
    have hhh := hP3 k t w hgt hgw hw
    rw [h1] at hhh
    exact hhh (hc t (List.get?_mem hgt)).2
  · have hSC : strategyC sqrtFn cfg hodo tracks = some k' := by
      unfold strategyC
      rw [if_pos (List.length_pos.mpr hne)]
      unfold pruneSelect
      rw [heq']
      simp
    refine ⟨k', t', w', hSC, hgt', hgw', hw', ?_⟩
    intro kk tt ww hgtt hgww hww
    have hhh := hP3 kk tt ww hgtt hgww hww
    have h2 : (pruneSelectGo tracks (pruneWs sqrtFn cfg hodo tracks) 0 (0, bigChi)).2
        = chi2PerDeg t' := by
      rw [heq']
    rw [h2] at hhh
    exact le_of_not_lt hhh

theorem C6_prune_golden_witness :
    ([pruneT] ≠ [] ∧ (∀ t ∈ [pruneT], 0 < t.ndof ∧ chi2PerDeg t < bigChi))
    ∧ ((∃ i t w, strategyC oneSqrt cCfg emptyHodo [pruneT] = some i
        ∧ [pruneT].get? i = some t
        ∧ (pruneWs oneSqrt cCfg emptyHodo [pruneT]).get? i = some w
        ∧ w.1 = true
        ∧ ∀ k t' w', [pruneT].get? k = some t'
            → (pruneWs oneSqrt cCfg emptyHodo [pruneT]).get? k = some w' → w'.1 = true
            → chi2PerDeg t ≤ chi2PerDeg t')
      ∧ strategyC oneSqrt cCfg emptyHodo [] = none) :=
  ⟨⟨List.cons_ne_nil _ _,
    by
      intro t ht
      rcases List.mem_cons.mp ht with rfl | ht'
      · norm_num [pruneT, baseTrack, chi2PerDeg, bigChi]
      · simp at ht'⟩,
    C6_prune_golden oneSqrt cCfg emptyHodo [pruneT] (List.cons_ne_nil _ _)
      (by
        intro t ht
        rcases List.mem_cons.mp ht with rfl | ht'
        · norm_num [pruneT, baseTrack, chi2PerDeg, bigChi]
        · simp at ht')⟩

/-- Claim C6 as stated is false on the code: in an event whose only kept
candidate (index 1) has chi2/ndof `2e10`, at or above the `fChi2Min`
sentinel, the final selection loop never fires and the golden track is the
initial `fGoodTrack = 0` — candidate 0, which is NOT kept (it was pruned by
the angle-x cut, rejection code 1). -/
theorem C6_counterexample :
    strategyC oneSqrt cCfg emptyHodo [failT, hugeT2] = some 0
    ∧ (pruneWs oneSqrt cCfg emptyHodo [failT, hugeT2]).get? 0 = some (false, 1)
    ∧ (pruneWs oneSqrt cCfg emptyHodo [failT, hugeT2]).get? 1 = some (true, 0)
    ∧ chi2PerDeg hugeT2 = 20000000000 := by
  have hws : pruneWs oneSqrt cCfg emptyHodo [failT, hugeT2]
      = [(false, 1), (true, 0)] := by
    norm_num [pruneWs, pruneCuts, softCut, nGoodCount, markFail, initWs, betaP,
      oneSqrt, cCfg, bCfg, emptyHodo, failT, hugeT2, pruneT, baseTrack]
  refine ⟨?_, by rw [hws]; rfl, by rw [hws]; rfl,
    by norm_num [chi2PerDeg, hugeT2, pruneT, baseTrack]⟩
  unfold strategyC
  rw [if_pos (by norm_num : 0 < ([failT, hugeT2].length))]
  unfold pruneSelect
  rw [hws]
  norm_num [pruneSelectGo, chi2PerDeg, failT, hugeT2, pruneT, baseTrack, bigChi]

/-- Claim C7 (amended): for an event whose candidate set contains exactly one
candidate, if that candidate passes the degrees-of-freedom and range cuts and
its chi2/ndof is below the `1e10` sentinel, then both consistency distance
scores are defined as exactly zero — independent of the hodoscope data
(`hodo` is universally quantified, so the hit lists cannot influence the
scores) — and that candidate becomes golden. -/
theorem C7_single_candidate (cfg : Config) (hodo : Hodo) (prev : Option ℕ)
    (t : Track) (hq : qualifies cfg t) (hc : chi2PerDeg t < bigChi) :
    scinEntries cfg hodo ([t].length) [t] 0 (-1) = [(0, 0, 0, chi2PerDeg t)]
    ∧ strategyB cfg hodo [t] prev = some 0 := by
  have hent : scinEntries cfg hodo ([t].length) [t] 0 (-1)
      = [(0, 0, 0, chi2PerDeg t)] := by
    rw [scinEntries, scinEval_of_qualifies cfg hodo ([t].length) (-1) t hq]
    norm_num [scinEntries]
  refine ⟨hent, ?_⟩
  unfold strategyB
  rw [if_pos (by norm_num : 0 < ([t].length))]
  have hloop : scinLoop cfg hodo ([t].length) [t] 0 (-1) initB
      = mkB (0, 0, 0, chi2PerDeg t) := by
    rw [scinLoop_eq_foldl cfg hodo ([t].length) [t] 0 (-1) initB, hent]
    simp only [List.foldl_cons, List.foldl_nil]
    rw [scanStepE_eq initB (0, 0, 0, chi2PerDeg t) (by norm_num) (by exact hc)]
    rw [if_pos]
    exact Or.inl (by norm_num [trOf, minsOf, initB])
  rw [hloop]
  rfl

theorem C7_single_candidate_witness :
    (qualifies bCfg baseTrack ∧ chi2PerDeg baseTrack < bigChi)
    ∧ (scinEntries bCfg hitHodo ([baseTrack].length) [baseTrack] 0 (-1)
        = [(0, 0, 0, chi2PerDeg baseTrack)]
      ∧ strategyB bCfg hitHodo [baseTrack] (some 5) = some 0) :=
  ⟨⟨by norm_num [qualifies, bCfg, baseTrack],
    by norm_num [chi2PerDeg, baseTrack, bigChi]⟩,
    C7_single_candidate bCfg hitHodo (some 5) baseTrack
      (by norm_num [qualifies, bCfg, baseTrack])
      (by norm_num [chi2PerDeg, baseTrack, bigChi])⟩

/-- Claim C7 as stated is false on the code: in an event with two candidates
of which exactly one qualifies, the scores of the qualifying candidate are
computed from the hodoscope hit lists, not forced to zero — here the single
hit in plane 3 sits at paddle 5 while the predicted paddle is 1, giving a
Y-plane distance of 5. -/
theorem C7_counterexample :
    qualifies b4Cfg baseTrack
    ∧ ¬ qualifies b4Cfg badTrack
    ∧ scinEntries b4Cfg hitHodo ([baseTrack, badTrack].length)
        [baseTrack, badTrack] 0 (-1) = [(0, 5, 0, 1)] := by
  have hq : qualifies b4Cfg baseTrack := by
    norm_num [qualifies, b4Cfg, bCfg, baseTrack]
  have hnq : ¬ qualifies b4Cfg badTrack := by
    norm_num [qualifies, b4Cfg, bCfg, badTrack, baseTrack]
  refine ⟨hq, hnq, ?_⟩
  rw [scinEntries, scinEval_of_qualifies b4Cfg hitHodo ([baseTrack, badTrack].length)
    (-1) baseTrack hq]
  simp only
  rw [scinEntries, scinEval_of_not_qualifies b4Cfg hitHodo
    ([baseTrack, badTrack].length) _ badTrack hnq]
  simp only [scinEntries]
  norm_num [scinPlaneWalk, List.range_succ, padWrite, hitHodo, predCnt4, predCnt3,
    nint, zapMin, zapStep, b4Cfg, bCfg, baseTrack, chi2PerDeg]

/-- Claim C8 is right about the intended behaviour and the code is wrong:
`fRawIndex` is initialized once before the candidate loop and never reset
between candidate evaluations, so the walk for the second qualifying
candidate reads the flat hit list starting past its end.  Here the hodoscope
has exactly one hit in total (plane 3, paddle 5 at flat index 0; any read
beyond the list returns 1): two IDENTICAL qualifying candidates obtain
different paddle marks and hence different Y-plane scores (5 for the first
evaluation, 1 for the second), contradicting the claim that every candidate
evaluation in the same event marks the identical set of hit paddles. -/
theorem C8_rawIndex_misalignment :
    (hitHodo.nScinHits 0 + hitHodo.nScinHits 1 + hitHodo.nScinHits 2
        + hitHodo.nScinHits 3 = 1)
    ∧ qualifies b4Cfg baseTrack
    ∧ scinEntries b4Cfg hitHodo ([baseTrack, baseTrack].length)
        [baseTrack, baseTrack] 0 (-1) = [(0, 5, 0, 1), (1, 1, 0, 1)] := by
  have hq : qualifies b4Cfg baseTrack := by
    norm_num [qualifies, b4Cfg, bCfg, baseTrack]
  refine ⟨by norm_num [hitHodo], hq, ?_⟩
  rw [scinEntries, scinEval_of_qualifies b4Cfg hitHodo
    ([baseTrack, baseTrack].length) (-1) baseTrack hq]
  simp only
  rw [scinEntries, scinEval_of_qualifies b4Cfg hitHodo
    ([baseTrack, baseTrack].length) _ baseTrack hq]
  simp only [scinEntries]
  norm_num [scinPlaneWalk, List.range_succ, padWrite, hitHodo, predCnt4, predCnt3,
    nint, zapMin, zapStep, b4Cfg, bCfg, baseTrack, chi2PerDeg]

/-- Claim C9 (amended): event processing (`TrackCalc`) leaves every
configuration scalar unchanged EXCEPT the nine prune thresholds, which the
prune branch clamps in place to `max(floor, value)`; when the prune mode is
off, or when every threshold already sits at or above its floor, the whole
configuration is unchanged. -/
theorem C9_config_mutation (sqrtFn : ℚ → ℚ) (cfg : Config) (hodo : Hodo)
    (tracks : List Track) (prev : Option ℕ) :
    ((trackCalc sqrtFn cfg hodo tracks prev).1.fSelUsingScin = cfg.fSelUsingScin
      ∧ (trackCalc sqrtFn cfg hodo tracks prev).1.fSelUsingPrune = cfg.fSelUsingPrune
      ∧ (trackCalc sqrtFn cfg hodo tracks prev).1.trSorting = cfg.trSorting
      ∧ (trackCalc sqrtFn cfg hodo tracks prev).1.fSelNDegreesMin = cfg.fSelNDegreesMin
      ∧ (trackCalc sqrtFn cfg hodo tracks prev).1.fSeldEdX1Min = cfg.fSeldEdX1Min
      ∧ (trackCalc sqrtFn cfg hodo tracks prev).1.fSeldEdX1Max = cfg.fSeldEdX1Max
      ∧ (trackCalc sqrtFn cfg hodo tracks prev).1.fSelBetaMin = cfg.fSelBetaMin
      ∧ (trackCalc sqrtFn cfg hodo tracks prev).1.fSelBetaMax = cfg.fSelBetaMax
      ∧ (trackCalc sqrtFn cfg hodo tracks prev).1.fSelEtMin = cfg.fSelEtMin
      ∧ (trackCalc sqrtFn cfg hodo tracks prev).1.fSelEtMax = cfg.fSelEtMax
      ∧ (trackCalc sqrtFn cfg hodo tracks prev).1.fNPlanes = cfg.fNPlanes
      ∧ (trackCalc sqrtFn cfg hodo tracks prev).1.fScin2XZpos = cfg.fScin2XZpos
      ∧ (trackCalc sqrtFn cfg hodo tracks prev).1.fScin2XdZpos = cfg.fScin2XdZpos
      ∧ (trackCalc sqrtFn cfg hodo tracks prev).1.fScin2YZpos = cfg.fScin2YZpos
      ∧ (trackCalc sqrtFn cfg hodo tracks prev).1.fScin2YdZpos = cfg.fScin2YdZpos
      ∧ (trackCalc sqrtFn cfg hodo tracks prev).1.fPartMass = cfg.fPartMass)
    ∧ (cfg.fSelUsingPrune = 1 →
        ((trackCalc sqrtFn cfg hodo tracks prev).1.fPruneXp = max (2/25) cfg.fPruneXp
        ∧ (trackCalc sqrtFn cfg hodo tracks prev).1.fPruneYp = max (1/25) cfg.fPruneYp
        ∧ (trackCalc sqrtFn cfg hodo tracks prev).1.fPruneYtar = max 4 cfg.fPruneYtar
        ∧ (trackCalc sqrtFn cfg hodo tracks prev).1.fPruneDelta = max 13 cfg.fPruneDelta
        ∧ (trackCalc sqrtFn cfg hodo tracks prev).1.fPruneBeta = max (1/10) cfg.fPruneBeta
        ∧ (trackCalc sqrtFn cfg hodo tracks prev).1.fPruneDf = max 1 cfg.fPruneDf
        ∧ (trackCalc sqrtFn cfg hodo tracks prev).1.fPruneChiBeta = max 2 cfg.fPruneChiBeta
        ∧ (trackCalc sqrtFn cfg hodo tracks prev).1.fPruneFpTime = max 5 cfg.fPruneFpTime
        ∧ (trackCalc sqrtFn cfg hodo tracks prev).1.fPruneNPMT = max 6 cfg.fPruneNPMT))
    ∧ (cfg.fSelUsingPrune ≠ 1 → (trackCalc sqrtFn cfg hodo tracks prev).1 = cfg)
    ∧ ((2/25 ≤ cfg.fPruneXp ∧ 1/25 ≤ cfg.fPruneYp ∧ 4 ≤ cfg.fPruneYtar
        ∧ 13 ≤ cfg.fPruneDelta ∧ 1/10 ≤ cfg.fPruneBeta ∧ 1 ≤ cfg.fPruneDf
        ∧ 2 ≤ cfg.fPruneChiBeta ∧ 5 ≤ cfg.fPruneFpTime ∧ 6 ≤ cfg.fPruneNPMT)
        → (trackCalc sqrtFn cfg hodo tracks prev).1 = cfg) := by
  have hbranch : (trackCalc sqrtFn cfg hodo tracks prev).1
      = if cfg.fSelUsingPrune = 1 then pruneClampConfig cfg else cfg := rfl
  refine ⟨?_, ?_, ?_, ?_⟩
  · rw [hbranch]
    by_cases hp : cfg.fSelUsingPrune = 1 <;> simp [hp, pruneClampConfig]
  · intro hp
    rw [hbranch, if_pos hp]
    simp [pruneClampConfig]
  · intro hp
    rw [hbranch, if_neg hp]
  · rintro ⟨h1, h2, h3, h4, h5, h6, h7, h8, h9⟩
    rw [hbranch]
    by_cases hp : cfg.fSelUsingPrune = 1
    · rw [if_pos hp]
      cases cfg
      simp only [pruneClampConfig] at *
      simp [max_eq_right h1, max_eq_right h2, max_eq_right h3, max_eq_right h4,
        max_eq_right h5, max_eq_right h6, max_eq_right h7, max_eq_right h8,
        max_eq_right h9]
      exact ⟨by linarith, by linarith⟩
    · rw [if_neg hp]

theorem C9_config_mutation_witness :
    cCfg.fSelUsingPrune = 1
    ∧ ((2/25 : ℚ) ≤ cCfg.fPruneXp ∧ (1/25 : ℚ) ≤ cCfg.fPruneYp
      ∧ (4 : ℚ) ≤ cCfg.fPruneYtar ∧ (13 : ℚ) ≤ cCfg.fPruneDelta
      ∧ (1/10 : ℚ) ≤ cCfg.fPruneBeta ∧ (1 : ℚ) ≤ cCfg.fPruneDf
      ∧ (2 : ℚ) ≤ cCfg.fPruneChiBeta ∧ (5 : ℚ) ≤ cCfg.fPruneFpTime
      ∧ (6 : ℚ) ≤ cCfg.fPruneNPMT)
    ∧ (trackCalc oneSqrt cCfg emptyHodo [] none).1 = cCfg :=
  ⟨rfl, by norm_num [cCfg, bCfg],
    (C9_config_mutation oneSqrt cCfg emptyHodo [] none).2.2.2
      (by norm_num [cCfg, bCfg])⟩

/-- Claim C9 as stated is false on the code: in prune mode the nine
thresholds are clamped in place — a `prune_xp` configured at 0.01 is
overwritten with its floor 0.08 during event processing. -/
theorem C9_counterexample :
    c9Cfg.fSelUsingPrune = 1
    ∧ c9Cfg.fPruneXp = 1/100
    ∧ (trackCalc oneSqrt c9Cfg emptyHodo [] none).1.fPruneXp = 2/25
    ∧ (2/25 : ℚ) ≠ 1/100 := by
  have hbranch : (trackCalc oneSqrt c9Cfg emptyHodo [] none).1
      = if c9Cfg.fSelUsingPrune = 1 then pruneClampConfig c9Cfg else c9Cfg := rfl
  refine ⟨rfl, rfl, ?_, by norm_num⟩
  rw [hbranch, if_pos (show c9Cfg.fSelUsingPrune = 1 from rfl)]
  norm_num [pruneClampConfig, c9Cfg, cCfg, bCfg]

/-- Claim C10: when both strategy-enable flags are 1, Strategy A does not run
(the candidate order is untouched and no sorted-first golden is installed),
both Strategy B and Strategy C execute in sequence on the same candidate set,
and the final golden designation is the one produced by Strategy C — the
result does not depend on the incoming golden value or on Strategy B's
choice. -/
theorem C10_both_flags (sqrtFn : ℚ → ℚ) (cfg : Config) (hodo : Hodo)
    (tracks : List Track) (prev : Option ℕ)
    (hs : cfg.fSelUsingScin = 1) (hp : cfg.fSelUsingPrune = 1) :
    trackCalc sqrtFn cfg hodo tracks prev
      = (pruneClampConfig cfg, tracks,
         strategyC sqrtFn (pruneClampConfig cfg) hodo tracks) := by
  unfold trackCalc
  simp [hs, hp]

theorem C10_both_flags_witness :
    (bothCfg.fSelUsingScin = 1 ∧ bothCfg.fSelUsingPrune = 1)
    ∧ trackCalc oneSqrt bothCfg emptyHodo [pruneT] (some 2)
        = (pruneClampConfig bothCfg, [pruneT],
           strategyC oneSqrt (pruneClampConfig bothCfg) emptyHodo [pruneT]) :=
  ⟨⟨rfl, rfl⟩, C10_both_flags oneSqrt bothCfg emptyHodo [pruneT] (some 2) rfl rfl⟩
